import Mathlib

set_option linter.dupNamespace false
set_option maxRecDepth 4000

/-!
# TypeWire core: shallow embedding and verification

This file embeds the resolution engine of `@typewirets/core`
(`src/packages/core/src/index.ts`) in Lean 4 and settles the claims of the
specification against it.

Modelling conventions:
* JavaScript `symbol` identities are modelled by `Nat`; a `TypeSymbol` is a
  symbol together with its optional debug description, mirroring the
  `TypeSymbol<T>` wrapper (the phantom type parameter is erased).
* JavaScript values that creators produce are modelled by `Value`, with JS
  truthiness (`truthy`); promises are not first-class values: whether a
  creator returns a promise is recorded by `Creator.isAsync` (the
  `isPromise` check of the source tests for a then-able, which is exactly
  the result of an `async` creator in this model).
* `Map<symbol, _>` is modelled by an association list over `Nat` keys with
  the JS `Map` semantics: `get` finds the first entry, `set` replaces in
  place or appends, `delete` removes the entry.
* Creator functions are modelled by a small first-order syntax
  (`CreatorAct`): a finite sequence of nested `ctx.get` / `ctx.getSync`
  calls followed by a final computation (which may throw) over the resolved
  values.  This covers the creators the spec and tests exercise.  The
  synchronous prefix that a real `async` creator would execute before its
  first `await` when invoked from `getSync` is not modelled (the promise is
  detected and discarded by `getSync` either way).
* Mutable state is threaded explicitly: `RunState` carries the singleton
  cache, the per-request monitors state, and an instrumentation log of
  creator invocations (which the source performs implicitly by running the
  creator function).
* The potentially unbounded recursion between resolution and creators is
  broken with explicit fuel; running out of fuel yields the distinguished
  `RErr.outOfFuel`, which no source code path produces.
-/

namespace TypeWire

/-- JS values a creator may produce, as far as the engine observes them. -/
inductive Value where
  | vUndefined : Value
  | vNull : Value
  | vBool : Bool → Value
  | vNum : Int → Value
  | vStr : String → Value
  | vObj : Nat → Value
  deriving DecidableEq, Repr

/-- JS truthiness, used by the singleton-cache hit test `if (singleton)`. -/
def Value.truthy : Value → Bool
  | .vUndefined => false
  | .vNull => false
  | .vBool b => b
  | .vNum n => n ≠ 0
  | .vStr s => s ≠ ""
  | .vObj _ => true

/-- `TypeSymbol<T>`: a unique runtime symbol plus a debug description. -/
structure TypeSymbol where
  symbol : Nat
  description : Option String
  deriving DecidableEq, Repr

/-- `UnknownTypeSymbol` constant of the source. -/
def UnknownTypeSymbol : String := "unknown"

/-- `getDescription`: the description of a symbol, or `"unknown"`. -/
def getDescription (typeSymbol : TypeSymbol) : String :=
  typeSymbol.description.getD UnknownTypeSymbol

/-- The `TypeWireError` class: a reason, an optional message and the
optional request id set by the monitor that annotated the error. -/
structure TypeWireError where
  reason : String
  message : Option String
  requestId : Option Nat
  deriving DecidableEq, Repr

/-- `ReasonBindingNotFound` -/
def ReasonBindingNotFound : String := "BindingNotFound"

/-- `ReasonAsyncOnlyBinding` -/
def ReasonAsyncOnlyBinding : String := "AsyncOnlyBinding"

/-- `ReasonCircularDependency` -/
def ReasonCircularDependency : String := "CircularDependency"

/-- Errors that can abort a resolution: engine `TypeWireError`s, plain JS
errors thrown by user code (`jsError`), and the two model artifacts
(`outOfFuel` for fuel exhaustion, `unmodeled` for a synchronous creator
using the suspending context method, which the model does not cover). -/
inductive RErr where
  | twError : TypeWireError → RErr
  | jsError : String → RErr
  | outOfFuel : RErr
  | unmodeled : RErr
  deriving DecidableEq, Repr

/-- The reason of an engine error, if the error is a `TypeWireError`. -/
def RErr.reason? : RErr → Option String
  | .twError e => some e.reason
  | _ => none

/-- The `TypeWireError` reason of a resolution outcome, if it failed with
one. -/
def reasonOf : Except RErr Value → Option String
  | .error e => e.reason?
  | .ok _ => none

instance : DecidableEq (Except RErr Value) := fun a b =>
  match a, b with
  | .ok v, .ok w => decidable_of_iff (v = w) (by simp)
  | .error e, .error f => decidable_of_iff (e = f) (by simp)
  | .ok _, .error _ => isFalse (by simp)
  | .error _, .ok _ => isFalse (by simp)

end TypeWire

namespace TypeWire

/-! ## Association lists with JS `Map` semantics -/

/-- `Map.get`. -/
def lookupA {α : Type} (l : List (Nat × α)) (k : Nat) : Option α :=
  match l with
  | [] => none
  | (k', v) :: rest => if k' = k then some v else lookupA rest k

/-- `Map.set`: replace in place if the key is present, else append. -/
def setA {α : Type} (l : List (Nat × α)) (k : Nat) (v : α) : List (Nat × α) :=
  match l with
  | [] => [(k, v)]
  | (k', v') :: rest => if k' = k then (k, v) :: rest else (k', v') :: setA rest k v

/-- `Map.delete`. -/
def eraseA {α : Type} (l : List (Nat × α)) (k : Nat) : List (Nat × α) :=
  match l with
  | [] => []
  | (k', v') :: rest => if k' = k then eraseA rest k else (k', v') :: eraseA rest k

/-- `Map.has`. -/
def hasA {α : Type} (l : List (Nat × α)) (k : Nat) : Bool :=
  (lookupA l k).isSome

theorem lookupA_setA_self {α : Type} (l : List (Nat × α)) (k : Nat) (v : α) :
    lookupA (setA l k v) k = some v := by
  induction l with
  | nil => simp [setA, lookupA]
  | cons hd tl ih =>
    obtain ⟨k', v'⟩ := hd
    by_cases h : k' = k <;> simp [setA, lookupA, h, ih]

theorem lookupA_setA_ne {α : Type} (l : List (Nat × α)) (k k' : Nat) (v : α)
    (h : k' ≠ k) : lookupA (setA l k v) k' = lookupA l k' := by
  induction l with
  | nil => simp [setA, lookupA, Ne.symm h]
  | cons hd tl ih =>
    obtain ⟨k₀, v₀⟩ := hd
    by_cases h₀ : k₀ = k
    · subst h₀
      simp [setA, lookupA, Ne.symm h]
    · simp only [setA, if_neg h₀, lookupA]
      by_cases h₁ : k₀ = k' <;> simp [h₁, ih]

theorem lookupA_eraseA_self {α : Type} (l : List (Nat × α)) (k : Nat) :
    lookupA (eraseA l k) k = none := by
  induction l with
  | nil => simp [eraseA, lookupA]
  | cons hd tl ih =>
    obtain ⟨k', v'⟩ := hd
    by_cases h : k' = k <;> simp [eraseA, lookupA, h, ih]

theorem lookupA_eraseA_ne {α : Type} (l : List (Nat × α)) (k k' : Nat)
    (h : k' ≠ k) : lookupA (eraseA l k) k' = lookupA l k' := by
  induction l with
  | nil => simp [eraseA, lookupA]
  | cons hd tl ih =>
    obtain ⟨k₀, v₀⟩ := hd
    by_cases h₀ : k₀ = k
    · subst h₀
      simp [eraseA, lookupA, Ne.symm h, ih]
    · simp only [eraseA, if_neg h₀, lookupA]
      by_cases h₁ : k₀ = k' <;> simp [h₁, ih]

theorem eraseA_of_lookupA_none {α : Type} (l : List (Nat × α)) (k : Nat)
    (h : lookupA l k = none) : eraseA l k = l := by
  induction l with
  | nil => rfl
  | cons hd tl ih =>
    obtain ⟨k', v'⟩ := hd
    by_cases h₀ : k' = k
    · subst h₀; simp [lookupA] at h
    · simp only [lookupA, if_neg h₀] at h
      simp [eraseA, h₀, ih h]

theorem setA_of_lookupA_none {α : Type} (l : List (Nat × α)) (k : Nat) (v : α)
    (h : lookupA l k = none) : setA l k v = l ++ [(k, v)] := by
  induction l with
  | nil => rfl
  | cons hd tl ih =>
    obtain ⟨k', v'⟩ := hd
    by_cases h₀ : k' = k
    · subst h₀; simp [lookupA] at h
    · simp only [lookupA, if_neg h₀] at h
      simp [setA, h₀, ih h]

theorem eraseA_append_self {α : Type} (l : List (Nat × α)) (k : Nat) (v : α)
    (h : lookupA l k = none) : eraseA (l ++ [(k, v)]) k = l := by
  induction l with
  | nil => simp [eraseA]
  | cons hd tl ih =>
    obtain ⟨k', v'⟩ := hd
    by_cases h₀ : k' = k
    · subst h₀; simp [lookupA] at h
    · simp only [lookupA, if_neg h₀] at h
      simp [eraseA, h₀, ih h]

end TypeWire

namespace TypeWire

/-! ## Wire definitions -/

/-- `ScopeSingleton` constant of the source. -/
def ScopeSingleton : String := "singleton"

/-- Body of a creator function: a finite sequence of nested context calls
followed by a final computation over the collected resolved values.
`call viaSync u rest` models `ctx.getSync(u)` (`viaSync = true`) or
`await ctx.get(u)` (`viaSync = false`); the resolved value is appended to
the list handed to the final computation. -/
inductive CreatorAct where
  | finish : (List Value → Except RErr Value) → CreatorAct
  | call : Bool → TypeSymbol → CreatorAct → CreatorAct

/-- A creator function: whether invoking it yields a promise (an `async`
function in the source), and its body. -/
structure Creator where
  isAsync : Bool
  act : CreatorAct

/-- `StandardTypeWire`: identity symbol, creator, optional scope, and
optional imported wires.  An inductive rather than a structure because `imports`
nests `TypeWire` itself. -/
inductive TypeWire where
  | mk : TypeSymbol → Creator → Option String → Option (List TypeWire) → TypeWire

/-- The `type` field (identity token) of a wire. -/
def TypeWire.type : TypeWire → TypeSymbol
  | .mk t _ _ _ => t

/-- The `creator` field of a wire. -/
def TypeWire.creator : TypeWire → Creator
  | .mk _ c _ _ => c

/-- The `scope` field of a wire. -/
def TypeWire.scope : TypeWire → Option String
  | .mk _ _ s _ => s

/-- The `imports` field of a wire. -/
def TypeWire.imports : TypeWire → Option (List TypeWire)
  | .mk _ _ _ i => i

/-- `withScope`: a new wire with the same symbol, creator and imports and
the given scope. -/
def TypeWire.withScope (w : TypeWire) (scope : String) : TypeWire :=
  .mk w.type w.creator (some scope) w.imports

/-- `withCreator`: a new wire whose creator is the decorator applied to the
original creator (the source closes over `this.creator` and passes it to
the decorator at each invocation). -/
def TypeWire.withCreator (w : TypeWire) (create : Creator → Creator) : TypeWire :=
  .mk w.type (create w.creator) w.scope w.imports

/-! ## The container state and its binding operations -/

/-- `TypeWireContainer` data: bindings, singleton cache, request sequence
counter, and the configured path-print limit. -/
structure Container where
  bindings : List (Nat × TypeWire)
  singletons : List (Nat × Value)
  requestSequence : Nat
  numberOfPathsToPrint : Option Nat

/-- A freshly constructed container. -/
def Container.new (numberOfPathsToPrint : Option Nat := none) : Container :=
  { bindings := [], singletons := [], requestSequence := 0,
    numberOfPathsToPrint := numberOfPathsToPrint }

/-- `Number.MAX_SAFE_INTEGER`. -/
def maxSafeInteger : Nat := 2 ^ 53 - 1

/-- `getNextRequestId`: increment, wrapping to 1 at the safe-integer cap. -/
def getNextRequestId (requestSequence : Nat) : Nat :=
  if maxSafeInteger ≤ requestSequence then 1 else requestSequence + 1

/-- `TypeWireContainer.bind`. -/
def Container.bindW (c : Container) (provider : TypeWire) : Container :=
  { c with bindings := setA c.bindings provider.type.symbol provider }

/-- `TypeWireContainer.isBound`. -/
def Container.isBound (c : Container) (typeSymbol : TypeSymbol) : Bool :=
  hasA c.bindings typeSymbol.symbol

/-- `TypeWireContainer.unbind`: removes the binding and any cached
singleton. -/
def Container.unbind (c : Container) (typeSymbol : TypeSymbol) : Container :=
  { c with bindings := eraseA c.bindings typeSymbol.symbol,
           singletons := eraseA c.singletons typeSymbol.symbol }

mutual

/-- `StandardTypeWire.apply`: apply each not-yet-bound import (recursively),
then unbind any existing binding for the own token, then bind. -/
def TypeWire.apply (w : TypeWire) (c : Container) : Container :=
  match w with
  | .mk t cr sc imps =>
    let c₁ := match imps with
      | none => c
      | some deps => applyDeps deps c
    let w' : TypeWire := .mk t cr sc imps
    let c₂ := if c₁.isBound t then c₁.unbind t else c₁
    c₂.bindW w'
termination_by sizeOf w

/-- The `for (const dep of this.imports)` loop of `apply`. -/
def applyDeps : List TypeWire → Container → Container
  | [], c => c
  | d :: rest, c => applyDeps rest (if c.isBound d.type then c else d.apply c)
termination_by l _ => sizeOf l

end

/-! ## Error message formatting -/

/-- `getInstruction`. -/
def getInstruction (reason : String) : String :=
  if reason = ReasonAsyncOnlyBinding then
    "Use `getInstance` to resolve this dependency asynchronously."
  else if reason = ReasonBindingNotFound then
    "Ensure the dependency is registered in the container before attempting resolution."
  else if reason = ReasonCircularDependency then
    "Check for circular references in your dependency graph and refactor to break the cycle."
  else
    "Review the dependency configuration for potential issues."

/-- The `for` loop of `formatDependencyPath`: walk the stack, emitting a
description while `maxNumberOfPaths` is 0 or `counts ≤ maxNumberOfPaths`,
incrementing `counts` per emitted entry; `break` otherwise.  Returns the
final `counts` and the emitted fragments. -/
def pathLoop (maxNumberOfPaths : Nat) : Nat → List TypeSymbol → Nat × List String
  | counts, [] => (counts, [])
  | counts, elem :: rest =>
    if maxNumberOfPaths = 0 ∨ counts ≤ maxNumberOfPaths then
      let r := pathLoop maxNumberOfPaths (counts + 1) rest
      (r.1, getDescription elem :: r.2)
    else (counts, [])

/-- `formatDependencyPath`: `requestedType` is only passed for circular
dependency errors; the loop keeps counting fragments, the requested type is
appended under the same count limit, and a `truncated...` marker is added
when `isTruncated` holds. -/
def formatDependencyPath (requestedType : Option TypeSymbol)
    (stack : List TypeSymbol) (numberOfPathsToPrint : Option Nat) : List String :=
  let maxNumberOfPaths := numberOfPathsToPrint.getD 0
  let r₁ := pathLoop maxNumberOfPaths 0 stack
  let r₂ := match requestedType with
    | some requested =>
      if maxNumberOfPaths = 0 ∨ r₁.1 ≤ maxNumberOfPaths then
        (r₁.1 + 1, r₁.2 ++ [getDescription requested])
      else r₁
    | none => r₁
  let isTruncated := maxNumberOfPaths ≠ 0 ∧
    r₂.1 < (if requestedType.isSome then 0 else 1) + stack.length
  if isTruncated then r₂.2 ++ ["truncated..."] else r₂.2

/-- `getErrorMessage`: the full formatted message; the requested type is
included in the path only for circular-dependency errors. -/
def getErrorMessage (type : TypeSymbol) (reason : String)
    (stack : List TypeSymbol) (numberOfPathsToPrint : Option Nat) : String :=
  let connector := " -> "
  let formattedPaths := formatDependencyPath
    (if reason = ReasonCircularDependency then some type else none)
    stack numberOfPathsToPrint
  "Failed To Resolve " ++ getDescription type ++
  "\nReason: " ++ reason ++
  "\nInstruction: " ++ getInstruction reason ++
  "\nResolution Path: [" ++ String.intercalate connector formattedPaths ++ "]\n"

end TypeWire

namespace TypeWire

/-! ## The per-request monitor and the resolution interpreter -/

/-- `CircularDependencyMonitor` state: the request id, the configured path
limit, the set of symbols currently tracked (`resolutionSet`) and the
ordered stack mirroring it (`resolutionStack`).  The source never removes
entries from either. -/
structure Monitor where
  requestId : Nat
  numberOfPathsToPrint : Option Nat
  resolutionSet : List Nat
  resolutionStack : List TypeSymbol

/-- `hasInStack`: membership of the symbol in the resolution set. -/
def Monitor.hasInStack (m : Monitor) (typeSymbol : TypeSymbol) : Bool :=
  m.resolutionSet.contains typeSymbol.symbol

/-- `add`: push the symbol onto the set and the stack. -/
def Monitor.add (m : Monitor) (typeSymbol : TypeSymbol) : Monitor :=
  { m with resolutionSet := m.resolutionSet ++ [typeSymbol.symbol],
           resolutionStack := m.resolutionStack ++ [typeSymbol] }

/-- The `catch` clause shared by `monitor` and `monitorAsync`: on a
`TypeWireError`, stamp the request id and, if no message is present yet,
render one from the current resolution stack; other errors pass through
unchanged. -/
def annotateErr (m : Monitor) (typeSymbol : TypeSymbol) (e : RErr) : RErr :=
  match e with
  | .twError err =>
    .twError { err with
      requestId := some m.requestId,
      message := match err.message with
        | some s => some s
        | none => some (getErrorMessage typeSymbol err.reason
            m.resolutionStack m.numberOfPathsToPrint) }
  | other => other

/-- `TypeWireError.circularDependency()` as thrown (no message yet). -/
def circularErr : RErr := .twError ⟨ReasonCircularDependency, none, none⟩

/-- `TypeWireError.bindingNotFound()` as thrown (no message yet). -/
def bindingNotFoundErr : RErr := .twError ⟨ReasonBindingNotFound, none, none⟩

/-- `TypeWireError.asyncBindingOnly()` as thrown (no message yet). -/
def asyncOnlyErr : RErr := .twError ⟨ReasonAsyncOnlyBinding, none, none⟩

/-- Which entry point a resolution came through: `sync` is
`getSync`/`monitor`, `async` is `get`/`monitorAsync`. -/
inductive Mode where
  | sync
  | async
  deriving DecidableEq, Repr

/-- The mutable state threaded through one resolution chain: the shared
singleton cache, the chain's monitor, and the instrumentation log of
creator invocations (the symbols whose creator was called, in call
order). -/
structure RunState where
  singletons : List (Nat × Value)
  mon : Monitor
  invocations : List Nat

/-- A pending piece of work for the resolution engine: either a resolution
of a symbol (through the monitor) or the continuation of a creator body.
The single-job form lets the interpreter be structurally recursive on its
fuel, so that concrete runs reduce by computation. -/
inductive EngineJob where
  | resolve : Mode → TypeSymbol → EngineJob
  | runA : Bool → List Value → CreatorAct → EngineJob

/-- The resolution engine, stepping one `EngineJob` with one unit of fuel
per recursive call.

`resolve mode ts` is `ScopedResolutionContext.get`/`getSync` for `ts`,
wrapped in `monitor`/`monitorAsync` of the chain's
`CircularDependencyMonitor`: the monitor first rejects symbols already in
its set (circular dependency), then adds the symbol; the action looks up
the binding, serves a truthy cached singleton, otherwise invokes the
creator — logging the invocation; on the blocking path an `async`
creator's result is a promise, detected by `isPromise` and rejected with
`AsyncOnlyBinding` (the model does not run its body further) — and, for
singleton scope, caches the result; any `TypeWireError` leaving the frame
is annotated with the resolution stack as it stands at that point.

`runA isAsync acc act` runs a creator body: each `call` resolves the named
symbol through the same monitor, appending the result to the collected
values `acc`; `finish` applies the final computation.  A synchronous
creator performing a suspending `ctx.get` call is outside the model. -/
def engineRun (bnd : List (Nat × TypeWire)) :
    Nat → RunState → EngineJob → Except RErr Value × RunState
  | 0, st, _ => (.error .outOfFuel, st)
  | fuel + 1, st, .resolve mode ts =>
    if st.mon.hasInStack ts then
      (.error (annotateErr st.mon ts circularErr), st)
    else
      let st₁ : RunState := { st with mon := st.mon.add ts }
      match lookupA bnd ts.symbol with
      | none => (.error (annotateErr st₁.mon ts bindingNotFoundErr), st₁)
      | some w =>
        let st₀ : RunState :=
          { st with mon := st.mon.add ts,
                    invocations := st.invocations ++ [ts.symbol] }
        let invoke : Except RErr Value × RunState :=
          match mode with
          | .sync =>
            if w.creator.isAsync then (.error asyncOnlyErr, st₀)
            else engineRun bnd fuel st₀ (.runA w.creator.isAsync [] w.creator.act)
          | .async => engineRun bnd fuel st₀ (.runA w.creator.isAsync [] w.creator.act)
        if w.scope.getD ScopeSingleton = ScopeSingleton then
          match lookupA st₁.singletons ts.symbol with
          | some v =>
            if v.truthy then (.ok v, st₁)
            else
              match invoke with
              | (.ok r, st₂) =>
                (.ok r, { st₂ with singletons := setA st₂.singletons ts.symbol r })
              | (.error e, st₂) => (.error (annotateErr st₂.mon ts e), st₂)
          | none =>
            match invoke with
            | (.ok r, st₂) =>
              (.ok r, { st₂ with singletons := setA st₂.singletons ts.symbol r })
            | (.error e, st₂) => (.error (annotateErr st₂.mon ts e), st₂)
        else
          match invoke with
          | (.ok r, st₂) => (.ok r, st₂)
          | (.error e, st₂) => (.error (annotateErr st₂.mon ts e), st₂)
  | fuel + 1, st, .runA isAsync acc act =>
    match act with
    | .finish f => (f acc, st)
    | .call viaSync u rest =>
      if isAsync = false ∧ viaSync = false then (.error .unmodeled, st)
      else
        match engineRun bnd fuel st (.resolve (if viaSync then .sync else .async) u) with
        | (.ok v, st') => engineRun bnd fuel st' (.runA isAsync (acc ++ [v]) rest)
        | (.error e, st') => (.error e, st')

/-- One resolution through the monitor (see `engineRun`). -/
def resolveFuel (fuel : Nat) (mode : Mode) (bnd : List (Nat × TypeWire))
    (st : RunState) (ts : TypeSymbol) : Except RErr Value × RunState :=
  engineRun bnd fuel st (.resolve mode ts)

/-- A fresh monitor for one top-level resolution request, as built by
`getScopedResolutionContext`. -/
def freshMonitor (requestId : Nat) (numberOfPathsToPrint : Option Nat) : Monitor :=
  { requestId := requestId, numberOfPathsToPrint := numberOfPathsToPrint,
    resolutionSet := [], resolutionStack := [] }

/-- A top-level `TypeWireContainer.get` (`mode = .async`) or `getSync`
(`mode = .sync`): a fresh request id and a fresh, never-shared monitor are
created, the resolution runs, and the (possibly updated) singleton cache
flows back into the container.  The invocation log is threaded alongside
for instrumentation. -/
def containerResolve (fuel : Nat) (mode : Mode) (c : Container)
    (inv : List Nat) (ts : TypeSymbol) :
    Except RErr Value × Container × List Nat :=
  let nextSeq := getNextRequestId c.requestSequence
  let st : RunState :=
    { singletons := c.singletons,
      mon := freshMonitor nextSeq c.numberOfPathsToPrint,
      invocations := inv }
  let r := resolveFuel fuel mode c.bindings st ts
  (r.1, { c with singletons := r.2.singletons, requestSequence := nextSeq },
   r.2.invocations)

end TypeWire

namespace TypeWire

/-! ## `typeWireOf` -/

/-- `typeSymbolOf`: wraps a freshly allocated runtime symbol (the `Nat`
identity stands for the `Symbol(token)` allocation) with its debug label. -/
def typeSymbolOf (sym : Nat) (token : String) : TypeSymbol :=
  { symbol := sym, description := some token }

/-- Options accepted by `typeWireOf` (the `TypeWireOpts` interface); the
named-imports map is an ordered list of `(name, wire)` pairs, matching the
`for (const key in imports)` enumeration order. -/
structure TypeWireOpts where
  token : TypeSymbol
  imports : Option (List (String × TypeWire))
  createWith : Option (List (String × Value) → Except RErr Value)
  creator : Option Creator
  scope : Option String

/-- The message of the `defaultCreator` error. -/
def notImplementedMsg (typedSymbol : TypeSymbol) : String :=
  "Not implemented yet. Please provide a creator or createWith for Symbol(" ++
    typedSymbol.description.getD "" ++ ")"

/-- `defaultCreator`: a synchronous creator that always throws. -/
def defaultCreator (typedSymbol : TypeSymbol) : Creator :=
  { isAsync := false,
    act := .finish fun _ => .error (.jsError (notImplementedMsg typedSymbol)) }

/-- The body of `autoCreator` when imports are present: one suspending
`wire.getInstance(ctx)` (that is, `ctx.get(wire.type)`) per import, in
declaration order, feeding the final computation. -/
def buildAct : List (String × TypeWire) → (List Value → Except RErr Value) → CreatorAct
  | [], f => .finish f
  | (_, w) :: rest, f => .call false w.type (buildAct rest f)

/-- `typeWireOf`: with `createWith`, builds the `autoCreator` (an `async`
function resolving each import and handing the named results to
`createWith`; with no imports it falls back to the throwing
`defaultCreator`) and records the import wires as the definition's `deps`;
without `createWith`, uses the given creator (or the throwing default) and
records no imports. -/
def typeWireOf (opts : TypeWireOpts) : TypeWire :=
  match opts.createWith with
  | some createWith =>
    let deps : Option (List TypeWire) := match opts.imports with
      | none => none
      | some imps => some (imps.map (·.2))
    let act : CreatorAct := match opts.imports with
      | none => .finish fun _ => .error (.jsError (notImplementedMsg opts.token))
      | some imps =>
        buildAct imps (fun vals => createWith (List.zip (imps.map (·.1)) vals))
    .mk opts.token { isAsync := true, act := act } opts.scope deps
  | none =>
    .mk opts.token (opts.creator.getD (defaultCreator opts.token)) opts.scope none

end TypeWire

namespace TypeWire

/-! Smoke tests of the interpreter on the spec's examples. -/

/-- A convenient singleton-scoped wire with a constant synchronous creator. -/
def constWire (sym : Nat) (label : String) (v : Value) : TypeWire :=
  .mk (typeSymbolOf sym label) ⟨false, .finish fun _ => .ok v⟩ none none

example :
    (containerResolve 10 .sync ((Container.new).bindW (constWire 0 "a" (.vObj 1)))
      [] (typeSymbolOf 0 "a")).1 = .ok (.vObj 1) := by decide

example :
    reasonOf (containerResolve 10 .sync (Container.new) [] (typeSymbolOf 0 "a")).1
      = some ReasonBindingNotFound := by decide

end TypeWire

namespace TypeWire

/-!
## Two concurrent top-level resolutions of one singleton token

Cooperative interleaving of two top-level `container.get(t)` calls for the
same singleton-scoped token whose creator is an `async` function that
suspends once before producing its value.  Each call owns a fresh
`CircularDependencyMonitor` (created by `getScopedResolutionContext`, never
shared); the singleton cache is the shared state.  One atomic segment runs
from entering `get` through `monitorAsync`'s check-and-add, the binding
lookup and the cache check up to the creator's first suspension point
(`ScopedResolutionContext.get`, the `await creator(this)` line); the second
segment resumes the creator, stores the result in the cache and returns.

`produced n` is the value the creator's `n`-th invocation produces
(invocations of the same creator may yield distinct fresh objects). -/
inductive ChainPhase where
  | ready : ChainPhase
  | creating : Value → ChainPhase
  | finished : Except RErr Value → ChainPhase
  deriving DecidableEq

/-- Joint state of the two interleaved resolutions of the singleton token:
the shared cache entry for the token, the number of creator invocations so
far, and, per chain, its phase and the resolution-set of its own fresh
monitor. -/
structure ConcState where
  cache : Option Value
  invCount : Nat
  phase1 : ChainPhase
  phase2 : ChainPhase
  mon1 : List Nat
  mon2 : List Nat
  deriving DecidableEq

/-- Both chains poised at their top-level `get(t)` call, fresh monitors,
cache as given. -/
def concInit (cache : Option Value) : ConcState :=
  { cache := cache, invCount := 0, phase1 := .ready, phase2 := .ready,
    mon1 := [], mon2 := [] }

/-- Advance one chain by one atomic segment (identity when the chain has
finished).  The first segment mirrors `monitorAsync` (circular check, add)
followed by the singleton branch of `ScopedResolutionContext.get`: a truthy
cached value finishes immediately, otherwise the creator is invoked and the
chain suspends; the second segment is the post-`await` code: cache the
produced value and finish. -/
def chainStep (tSym : Nat) (produced : Nat → Value)
    (cache : Option Value) (invCount : Nat) (phase : ChainPhase) (mon : List Nat) :
    Option Value × Nat × ChainPhase × List Nat :=
  match phase with
  | .ready =>
    if mon.contains tSym then
      (cache, invCount, .finished (.error circularErr), mon)
    else
      let mon' := mon ++ [tSym]
      match cache with
      | some v =>
        if v.truthy then (cache, invCount, .finished (.ok v), mon')
        else (cache, invCount + 1, .creating (produced invCount), mon')
      | none => (cache, invCount + 1, .creating (produced invCount), mon')
  | .creating v => (some v, invCount, .finished (.ok v), mon)
  | .finished r => (cache, invCount, .finished r, mon)

/-- Run one scheduler decision: `true` advances chain 1, `false` chain 2. -/
def concStep (tSym : Nat) (produced : Nat → Value) (s : ConcState) :
    Bool → ConcState
  | true =>
    let r := chainStep tSym produced s.cache s.invCount s.phase1 s.mon1
    { s with cache := r.1, invCount := r.2.1, phase1 := r.2.2.1, mon1 := r.2.2.2 }
  | false =>
    let r := chainStep tSym produced s.cache s.invCount s.phase2 s.mon2
    { s with cache := r.1, invCount := r.2.1, phase2 := r.2.2.1, mon2 := r.2.2.2 }

/-- Run a whole schedule (list of scheduler decisions). -/
def concRun (tSym : Nat) (produced : Nat → Value) :
    List Bool → ConcState → ConcState
  | [], s => s
  | b :: rest, s => concRun tSym produced rest (concStep tSym produced s b)

end TypeWire

namespace TypeWire

/-! ## State-evolution lemmas for the resolution engine -/

/-- How a chain's monitor may change across any engine work: identity
fields are preserved and the set and stack only grow at the end. -/
def MonGrows (m m' : Monitor) : Prop :=
  m'.requestId = m.requestId ∧
  m'.numberOfPathsToPrint = m.numberOfPathsToPrint ∧
  (∃ ext, m'.resolutionSet = m.resolutionSet ++ ext) ∧
  (∃ ext, m'.resolutionStack = m.resolutionStack ++ ext)

/-- How the run state may change across a complete engine job: the monitor
grows, cache entries of in-flight symbols are untouched, in-flight symbols
get no further creator invocations, and any other symbol gains at most one
invocation — and only together with becoming in-flight. -/
def Evolves (st st' : RunState) : Prop :=
  MonGrows st.mon st'.mon ∧
  (∀ u, u ∈ st.mon.resolutionSet →
    lookupA st'.singletons u = lookupA st.singletons u) ∧
  (∀ u, u ∈ st.mon.resolutionSet →
    List.count u st'.invocations = List.count u st.invocations) ∧
  (∀ u, u ∉ st.mon.resolutionSet →
    List.count u st'.invocations ≤ List.count u st.invocations + 1 ∧
    (List.count u st'.invocations ≠ List.count u st.invocations →
      u ∈ st'.mon.resolutionSet))

theorem monGrows_refl (m : Monitor) : MonGrows m m :=
  ⟨rfl, rfl, ⟨[], by simp⟩, ⟨[], by simp⟩⟩

theorem monGrows_trans {m₁ m₂ m₃ : Monitor}
    (h₁ : MonGrows m₁ m₂) (h₂ : MonGrows m₂ m₃) : MonGrows m₁ m₃ := by
  obtain ⟨ha, hb, ⟨e₁, he₁⟩, ⟨f₁, hf₁⟩⟩ := h₁
  obtain ⟨ha', hb', ⟨e₂, he₂⟩, ⟨f₂, hf₂⟩⟩ := h₂
  exact ⟨ha'.trans ha, hb'.trans hb,
    ⟨e₁ ++ e₂, by simp [he₂, he₁]⟩, ⟨f₁ ++ f₂, by simp [hf₂, hf₁]⟩⟩

theorem monGrows_mem {m m' : Monitor} (h : MonGrows m m') {u : Nat}
    (hu : u ∈ m.resolutionSet) : u ∈ m'.resolutionSet := by
  obtain ⟨-, -, ⟨ext, hext⟩, -⟩ := h
  simp [hext, hu]

theorem evolves_refl (st : RunState) : Evolves st st :=
  ⟨monGrows_refl _, fun _ _ => rfl, fun _ _ => rfl,
   fun _ _ => ⟨Nat.le_succ _, fun h => absurd rfl h⟩⟩

theorem evolves_trans {st₁ st₂ st₃ : RunState}
    (h₁ : Evolves st₁ st₂) (h₂ : Evolves st₂ st₃) : Evolves st₁ st₃ := by
  obtain ⟨hm₁, hc₁, hi₁, ho₁⟩ := h₁
  obtain ⟨hm₂, hc₂, hi₂, ho₂⟩ := h₂
  refine ⟨monGrows_trans hm₁ hm₂, ?_, ?_, ?_⟩
  · intro u hu
    exact (hc₂ u (monGrows_mem hm₁ hu)).trans (hc₁ u hu)
  · intro u hu
    exact (hi₂ u (monGrows_mem hm₁ hu)).trans (hi₁ u hu)
  · intro u hu
    by_cases hu₂ : u ∈ st₂.mon.resolutionSet
    · refine ⟨?_, ?_⟩
      · rw [hi₂ u hu₂]; exact (ho₁ u hu).1
      · intro hne
        rw [hi₂ u hu₂] at hne
        exact monGrows_mem hm₂ (((ho₁ u hu).2) hne)
    · have h1 : List.count u st₂.invocations = List.count u st₁.invocations := by
        by_contra hne
        exact hu₂ ((ho₁ u hu).2 hne)
      refine ⟨?_, ?_⟩
      · rw [← h1]; exact (ho₂ u hu₂).1
      · intro hne
        rw [← h1] at hne
        exact (ho₂ u hu₂).2 hne

end TypeWire

namespace TypeWire

/-- The state right after the monitor added the symbol and the engine
logged the creator invocation. -/
def addLog (st : RunState) (ts : TypeSymbol) : RunState :=
  { st with mon := st.mon.add ts,
            invocations := st.invocations ++ [ts.symbol] }

theorem evolves_add (st : RunState) (ts : TypeSymbol) :
    Evolves st { st with mon := st.mon.add ts } := by
  refine ⟨⟨rfl, rfl, ⟨[ts.symbol], rfl⟩, ⟨[ts], rfl⟩⟩,
    fun _ _ => rfl, fun _ _ => rfl,
    fun _ _ => ⟨Nat.le_succ _, fun h => absurd rfl h⟩⟩

theorem evolves_addLog (st : RunState) (ts : TypeSymbol)
    (hnot : ts.symbol ∉ st.mon.resolutionSet) :
    Evolves st (addLog st ts) := by
  refine ⟨⟨rfl, rfl, ⟨[ts.symbol], rfl⟩, ⟨[ts], rfl⟩⟩, fun _ _ => rfl, ?_, ?_⟩
  · intro u hu
    have hne : ts.symbol ≠ u := fun h => hnot (h ▸ hu)
    simp [addLog, List.count_append, List.count_singleton', hne]
  · intro u hu
    by_cases he : u = ts.symbol
    · subst he
      refine ⟨by simp [addLog, List.count_append], fun _ => ?_⟩
      simp [addLog, Monitor.add]
    · have hne : ts.symbol ≠ u := fun h => he h.symm
      refine ⟨?_, fun hc => ?_⟩
      · simp [addLog, List.count_append, List.count_singleton', hne]
      · exact absurd (by simp [addLog, List.count_append, List.count_singleton', hne]) hc

theorem evolves_setOwn {st st₂ : RunState} (ts : TypeSymbol) (r : Value)
    (hnot : ts.symbol ∉ st.mon.resolutionSet) (h : Evolves st st₂) :
    Evolves st { st₂ with singletons := setA st₂.singletons ts.symbol r } := by
  obtain ⟨hm, hc, hi, ho⟩ := h
  refine ⟨hm, ?_, hi, ho⟩
  intro u hu
  have hne : u ≠ ts.symbol := fun h' => hnot (h' ▸ hu)
  simpa [lookupA_setA_ne _ _ _ _ hne] using hc u hu

end TypeWire


namespace TypeWire

/-- Any engine job evolves the run state according to `Evolves`: the
monitor only grows, cache entries of in-flight symbols are preserved, and
each symbol's creator runs at most once per chain entry. -/
theorem engineRun_evolves (bnd : List (Nat × TypeWire)) :
    ∀ (fuel : Nat) (st : RunState) (job : EngineJob),
      Evolves st (engineRun bnd fuel st job).2 := by
  intro fuel
  induction fuel with
  | zero => intro st job; exact evolves_refl st
  | succ fuel ih =>
    intro st job
    cases job with
    | runA isAsync acc act =>
      cases act with
      | finish f => exact evolves_refl st
      | call viaSync u rest =>
        simp only [engineRun]
        by_cases hm : isAsync = false ∧ viaSync = false
        · simp only [if_pos hm]; exact evolves_refl st
        · simp only [if_neg hm]
          rcases hres : engineRun bnd fuel st
              (.resolve (if viaSync then .sync else .async) u) with ⟨r, st'⟩
          have h₁ : Evolves st st' := by
            have h := ih st (.resolve (if viaSync then .sync else .async) u)
            rwa [hres] at h
          cases r with
          | ok v => exact evolves_trans h₁ (ih st' (.runA isAsync (acc ++ [v]) rest))
          | error e => exact h₁
    | resolve mode ts =>
      simp only [engineRun]
      by_cases hIn : st.mon.hasInStack ts
      · simp only [if_pos hIn]; exact evolves_refl st
      · simp only [if_neg hIn]
        have hnot : ts.symbol ∉ st.mon.resolutionSet := by
          simpa [Monitor.hasInStack] using hIn
        rcases hbnd : lookupA bnd ts.symbol with _ | w
        · exact evolves_add st ts
        · have hbase : Evolves st (addLog st ts) := evolves_addLog st ts hnot
          cases mode with
          | sync =>
            cases hA : w.creator.isAsync with
            | true =>
              simp only [hA]
              by_cases hsc : w.scope.getD ScopeSingleton = ScopeSingleton
              · simp only [if_pos hsc]
                rcases hca : lookupA st.singletons ts.symbol with _ | v
                · exact hbase
                · cases hv : v.truthy with
                  | true => simp only [hv]; exact evolves_add st ts
                  | false => simp only [hv]; exact hbase
              · simp only [if_neg hsc]; exact hbase
            | false =>
              simp only [hA]
              rcases hres : engineRun bnd fuel (addLog st ts)
                  (.runA false [] w.creator.act) with ⟨r', st₂⟩
              have h₂ : Evolves st st₂ := by
                have h := ih (addLog st ts) (.runA false [] w.creator.act)
                rw [hres] at h
                exact evolves_trans hbase h
              have hres' : engineRun bnd fuel
                  { st with mon := st.mon.add ts,
                            invocations := st.invocations ++ [ts.symbol] }
                  (.runA false [] w.creator.act) = (r', st₂) := hres
              by_cases hsc : w.scope.getD ScopeSingleton = ScopeSingleton
              · simp only [if_pos hsc]
                rcases hca : lookupA st.singletons ts.symbol with _ | v
                · simp only [hres']
                  cases r' with
                  | ok rv => exact evolves_setOwn ts rv hnot h₂
                  | error e => exact h₂
                · cases hv : v.truthy with
                  | true => simp only [hv]; exact evolves_add st ts
                  | false =>
                    simp only [hv, hres']
                    cases r' with
                    | ok rv => exact evolves_setOwn ts rv hnot h₂
                    | error e => exact h₂
              · simp only [if_neg hsc, hres']
                cases r' with
                | ok rv => exact h₂
                | error e => exact h₂
          | async =>
            rcases hres : engineRun bnd fuel (addLog st ts)
                (.runA w.creator.isAsync [] w.creator.act) with ⟨r', st₂⟩
            have h₂ : Evolves st st₂ := by
              have h := ih (addLog st ts) (.runA w.creator.isAsync [] w.creator.act)
              rw [hres] at h
              exact evolves_trans hbase h
            have hres' : engineRun bnd fuel
                { st with mon := st.mon.add ts,
                          invocations := st.invocations ++ [ts.symbol] }
                (.runA w.creator.isAsync [] w.creator.act) = (r', st₂) := hres
            by_cases hsc : w.scope.getD ScopeSingleton = ScopeSingleton
            · simp only [if_pos hsc]
              rcases hca : lookupA st.singletons ts.symbol with _ | v
              · simp only [hres']
                cases r' with
                | ok rv => exact evolves_setOwn ts rv hnot h₂
                | error e => exact h₂
              · cases hv : v.truthy with
                | true => simp only [hv]; exact evolves_add st ts
                | false =>
                  simp only [hv, hres']
                  cases r' with
                  | ok rv => exact evolves_setOwn ts rv hnot h₂
                  | error e => exact h₂
            · simp only [if_neg hsc, hres']
              cases r' with
              | ok rv => exact h₂
              | error e => exact h₂

end TypeWire

namespace TypeWire

/-- Cache entries of in-flight symbols survive any engine job. -/
theorem engineRun_cache_inflight (bnd : List (Nat × TypeWire)) (fuel : Nat)
    (st : RunState) (job : EngineJob) (u : Nat)
    (hu : u ∈ st.mon.resolutionSet) :
    lookupA (engineRun bnd fuel st job).2.singletons u = lookupA st.singletons u :=
  (engineRun_evolves bnd fuel st job).2.1 u hu

/-- A resolution that does not succeed leaves the resolved symbol's cache
entry exactly as it was: the only write to a symbol's own entry sits on the
success path of its own resolution. -/
theorem resolve_error_own_entry (bnd : List (Nat × TypeWire)) (fuel : Nat)
    (mode : Mode) (st : RunState) (ts : TypeSymbol)
    (h : ∀ v, (engineRun bnd fuel st (.resolve mode ts)).1 ≠ .ok v) :
    lookupA (engineRun bnd fuel st (.resolve mode ts)).2.singletons ts.symbol
      = lookupA st.singletons ts.symbol := by
  cases fuel with
  | zero => rfl
  | succ fuel =>
    have hmem : ts.symbol ∈ (addLog st ts).mon.resolutionSet := by
      simp [addLog, Monitor.add]
    simp only [engineRun] at h ⊢
    by_cases hIn : st.mon.hasInStack ts
    · simp [if_pos hIn]
    · simp only [if_neg hIn] at h ⊢
      rcases hbnd : lookupA bnd ts.symbol with _ | w
      · simp [hbnd]
      · simp only [hbnd] at h ⊢
        have hpres : ∀ isA,
            lookupA (engineRun bnd fuel (addLog st ts)
              (.runA isA [] w.creator.act)).2.singletons ts.symbol
            = lookupA st.singletons ts.symbol := fun isA =>
          engineRun_cache_inflight bnd fuel (addLog st ts)
            (.runA isA [] w.creator.act) ts.symbol hmem
        cases mode with
        | sync =>
          cases hA : w.creator.isAsync with
          | true =>
            simp only [hA] at h ⊢
            by_cases hsc : w.scope.getD ScopeSingleton = ScopeSingleton
            · simp only [if_pos hsc] at h ⊢
              rcases hca : lookupA st.singletons ts.symbol with _ | v <;>
                simp only [hca] at h ⊢
              · exact hca
              · cases hv : v.truthy with
                | true =>
                  simp only [hv] at h
                  exact absurd rfl (h v)
                | false => exact hca
            · simp only [if_neg hsc]; rfl
          | false =>
            simp only [hA] at h ⊢
            rcases hres : engineRun bnd fuel (addLog st ts)
                (.runA false [] w.creator.act) with ⟨r', st₂⟩
            have hp : lookupA st₂.singletons ts.symbol
                = lookupA st.singletons ts.symbol := by
              have hx := hpres false; rw [hres] at hx; exact hx
            have hres' : engineRun bnd fuel
                { st with mon := st.mon.add ts,
                          invocations := st.invocations ++ [ts.symbol] }
                (.runA false [] w.creator.act) = (r', st₂) := hres
            by_cases hsc : w.scope.getD ScopeSingleton = ScopeSingleton
            · simp only [if_pos hsc] at h ⊢
              rcases hca : lookupA st.singletons ts.symbol with _ | v <;>
                simp only [hca] at h ⊢
              · simp only [hres'] at h ⊢
                cases r' with
                | ok rv => exact absurd rfl (h rv)
                | error e' => exact hp.trans hca
              · cases hv : v.truthy with
                | true =>
                  simp only [hv] at h
                  exact absurd rfl (h v)
                | false =>
                  simp only [hv, hres'] at h ⊢
                  cases r' with
                  | ok rv => exact absurd rfl (h rv)
                  | error e' => exact hp.trans hca
            · simp only [if_neg hsc, hres'] at h ⊢
              cases r' with
              | ok rv => exact absurd rfl (h rv)
              | error e' => exact hp
        | async =>
          rcases hres : engineRun bnd fuel (addLog st ts)
              (.runA w.creator.isAsync [] w.creator.act) with ⟨r', st₂⟩
          have hp : lookupA st₂.singletons ts.symbol
              = lookupA st.singletons ts.symbol := by
            have hx := hpres w.creator.isAsync; rw [hres] at hx; exact hx
          have hres' : engineRun bnd fuel
              { st with mon := st.mon.add ts,
                        invocations := st.invocations ++ [ts.symbol] }
              (.runA w.creator.isAsync [] w.creator.act) = (r', st₂) := hres
          by_cases hsc : w.scope.getD ScopeSingleton = ScopeSingleton
          · simp only [if_pos hsc] at h ⊢
            rcases hca : lookupA st.singletons ts.symbol with _ | v <;>
              simp only [hca] at h ⊢
            · simp only [hres'] at h ⊢
              cases r' with
              | ok rv => exact absurd rfl (h rv)
              | error e' => exact hp.trans hca
            · cases hv : v.truthy with
              | true =>
                simp only [hv] at h
                exact absurd rfl (h v)
              | false =>
                simp only [hv, hres'] at h ⊢
                cases r' with
                | ok rv => exact absurd rfl (h rv)
                | error e' => exact hp.trans hca
          · simp only [if_neg hsc, hres'] at h ⊢
            cases r' with
            | ok rv => exact absurd rfl (h rv)
            | error e' => exact hp

end TypeWire

namespace TypeWire

/-- A resolution of a symbol whose active wire has a non-singleton scope
never writes the symbol's cache entry, whatever the outcome. -/
theorem resolve_nonsingleton_own_entry (bnd : List (Nat × TypeWire)) (fuel : Nat)
    (mode : Mode) (st : RunState) (ts : TypeSymbol) (w : TypeWire)
    (hbnd : lookupA bnd ts.symbol = some w)
    (hsc : ¬ w.scope.getD ScopeSingleton = ScopeSingleton) :
    lookupA (engineRun bnd fuel st (.resolve mode ts)).2.singletons ts.symbol
      = lookupA st.singletons ts.symbol := by
  cases fuel with
  | zero => rfl
  | succ fuel =>
    have hmem : ts.symbol ∈ (addLog st ts).mon.resolutionSet := by
      simp [addLog, Monitor.add]
    have hpres : ∀ isA,
        lookupA (engineRun bnd fuel (addLog st ts)
          (.runA isA [] w.creator.act)).2.singletons ts.symbol
        = lookupA st.singletons ts.symbol := fun isA =>
      engineRun_cache_inflight bnd fuel (addLog st ts)
        (.runA isA [] w.creator.act) ts.symbol hmem
    simp only [engineRun]
    by_cases hIn : st.mon.hasInStack ts
    · simp [if_pos hIn]
    · simp only [if_neg hIn, hbnd, if_neg hsc]
      cases mode with
      | sync =>
        cases hA : w.creator.isAsync with
        | true => simp only [hA]; rfl
        | false =>
          simp only [hA]
          rcases hres : engineRun bnd fuel (addLog st ts)
              (.runA false [] w.creator.act) with ⟨r', st₂⟩
          have hp : lookupA st₂.singletons ts.symbol
              = lookupA st.singletons ts.symbol := by
            have hx := hpres false; rw [hres] at hx; exact hx
          have hres' : engineRun bnd fuel
              { st with mon := st.mon.add ts,
                        invocations := st.invocations ++ [ts.symbol] }
              (.runA false [] w.creator.act) = (r', st₂) := hres
          simp only [hres']
          cases r' <;> exact hp
      | async =>
        rcases hres : engineRun bnd fuel (addLog st ts)
            (.runA w.creator.isAsync [] w.creator.act) with ⟨r', st₂⟩
        have hp : lookupA st₂.singletons ts.symbol
            = lookupA st.singletons ts.symbol := by
          have hx := hpres w.creator.isAsync; rw [hres] at hx; exact hx
        have hres' : engineRun bnd fuel
            { st with mon := st.mon.add ts,
                      invocations := st.invocations ++ [ts.symbol] }
            (.runA w.creator.isAsync [] w.creator.act) = (r', st₂) := hres
        simp only [hres']
        cases r' <;> exact hp

/-- A successful resolution of a symbol not yet in flight runs its creator
exactly once more — the nested work cannot re-invoke it because the symbol
is in the monitor's set throughout. -/
theorem resolve_ok_invokes_once (bnd : List (Nat × TypeWire)) (fuel : Nat)
    (mode : Mode) (st : RunState) (ts : TypeSymbol) (w : TypeWire) (v : Value)
    (hnot : ts.symbol ∉ st.mon.resolutionSet)
    (hbnd : lookupA bnd ts.symbol = some w)
    (hmiss : w.scope.getD ScopeSingleton = ScopeSingleton →
      ∀ u, lookupA st.singletons ts.symbol = some u → u.truthy = false)
    (hok : (engineRun bnd fuel st (.resolve mode ts)).1 = .ok v) :
    List.count ts.symbol (engineRun bnd fuel st (.resolve mode ts)).2.invocations
      = List.count ts.symbol st.invocations + 1 := by
  cases fuel with
  | zero => simp [engineRun] at hok
  | succ fuel =>
    have hmem : ts.symbol ∈ (addLog st ts).mon.resolutionSet := by
      simp [addLog, Monitor.add]
    have hIn : ¬ st.mon.hasInStack ts = true := by
      simp [Monitor.hasInStack]
      exact hnot
    have hcnt : ∀ isA,
        List.count ts.symbol (engineRun bnd fuel (addLog st ts)
          (.runA isA [] w.creator.act)).2.invocations
        = List.count ts.symbol st.invocations + 1 := by
      intro isA
      have he := (engineRun_evolves bnd fuel (addLog st ts)
        (.runA isA [] w.creator.act)).2.2.1 ts.symbol hmem
      rw [he]
      simp [addLog, List.count_append]
    simp only [engineRun, if_neg hIn, hbnd] at hok ⊢
    cases mode with
    | sync =>
      cases hA : w.creator.isAsync with
      | true =>
        simp only [hA] at hok ⊢
        by_cases hsc : w.scope.getD ScopeSingleton = ScopeSingleton
        · simp only [if_pos hsc] at hok ⊢
          rcases hca : lookupA st.singletons ts.symbol with _ | u <;>
            simp only [hca] at hok ⊢
          · simp at hok
          · rw [hmiss hsc u hca] at hok ⊢
            simp at hok
        · simp only [if_neg hsc] at hok
          simp at hok
      | false =>
        simp only [hA] at hok ⊢
        rcases hres : engineRun bnd fuel (addLog st ts)
            (.runA false [] w.creator.act) with ⟨r', st₂⟩
        have hc : List.count ts.symbol st₂.invocations
            = List.count ts.symbol st.invocations + 1 := by
          have hx := hcnt false; rw [hres] at hx; exact hx
        have hres' : engineRun bnd fuel
            { st with mon := st.mon.add ts,
                      invocations := st.invocations ++ [ts.symbol] }
            (.runA false [] w.creator.act) = (r', st₂) := hres
        by_cases hsc : w.scope.getD ScopeSingleton = ScopeSingleton
        · simp only [if_pos hsc] at hok ⊢
          rcases hca : lookupA st.singletons ts.symbol with _ | u <;>
            simp only [hca] at hok ⊢
          · simp only [hres'] at hok ⊢
            cases r' <;> exact hc
          · rw [hmiss hsc u hca] at hok ⊢
            simp only [hres'] at hok ⊢
            cases r' <;> exact hc
        · simp only [if_neg hsc, hres'] at hok ⊢
          cases r' <;> exact hc
    | async =>
      rcases hres : engineRun bnd fuel (addLog st ts)
          (.runA w.creator.isAsync [] w.creator.act) with ⟨r', st₂⟩
      have hc : List.count ts.symbol st₂.invocations
          = List.count ts.symbol st.invocations + 1 := by
        have hx := hcnt w.creator.isAsync; rw [hres] at hx; exact hx
      have hres' : engineRun bnd fuel
          { st with mon := st.mon.add ts,
                    invocations := st.invocations ++ [ts.symbol] }
          (.runA w.creator.isAsync [] w.creator.act) = (r', st₂) := hres
      by_cases hsc : w.scope.getD ScopeSingleton = ScopeSingleton
      · simp only [if_pos hsc] at hok ⊢
        rcases hca : lookupA st.singletons ts.symbol with _ | u <;>
          simp only [hca] at hok ⊢
        · simp only [hres'] at hok ⊢
          cases r' <;> exact hc
        · rw [hmiss hsc u hca] at hok ⊢
          simp only [hres'] at hok ⊢
          cases r' <;> exact hc
      · simp only [if_neg hsc, hres'] at hok ⊢
        cases r' <;> exact hc

end TypeWire


namespace TypeWire

/-- Replacing the cache entry of an in-flight symbol `t` is invisible to
the engine: starting from two states that share the monitor and the
invocation log and whose caches agree off `t`, any engine job produces the
same result, the same monitor, the same invocation log, and caches that
again agree off `t`.  In particular a resolution never reads the cache
entry of a symbol that is in flight. -/
theorem engineRun_cacheBlind (bnd : List (Nat × TypeWire)) (t : Nat) :
    ∀ (fuel : Nat) (sA sB : List (Nat × Value)) (m : Monitor) (i : List Nat)
      (job : EngineJob),
      t ∈ m.resolutionSet →
      (∀ k, k ≠ t → lookupA sB k = lookupA sA k) →
      (engineRun bnd fuel ⟨sB, m, i⟩ job).1 = (engineRun bnd fuel ⟨sA, m, i⟩ job).1 ∧
      (engineRun bnd fuel ⟨sB, m, i⟩ job).2.mon
        = (engineRun bnd fuel ⟨sA, m, i⟩ job).2.mon ∧
      (engineRun bnd fuel ⟨sB, m, i⟩ job).2.invocations
        = (engineRun bnd fuel ⟨sA, m, i⟩ job).2.invocations ∧
      (∀ k, k ≠ t →
        lookupA (engineRun bnd fuel ⟨sB, m, i⟩ job).2.singletons k
          = lookupA (engineRun bnd fuel ⟨sA, m, i⟩ job).2.singletons k) := by
  intro fuel
  induction fuel with
  | zero => intro sA sB m i job ht hs; refine ⟨?_, ?_, ?_, hs⟩ <;> trivial
  | succ fuel ih =>
    intro sA sB m i job ht hs
    cases job with
    | runA isAsync acc act =>
      cases act with
      | finish f => refine ⟨?_, ?_, ?_, hs⟩ <;> trivial
      | call viaSync u rest =>
        simp only [engineRun]
        by_cases hm : isAsync = false ∧ viaSync = false
        · simp only [if_pos hm]
          refine ⟨?_, ?_, ?_, hs⟩ <;> trivial
        · simp only [if_neg hm]
          rcases hA : engineRun bnd fuel ⟨sA, m, i⟩
              (.resolve (if viaSync then .sync else .async) u) with ⟨r, st'⟩
          rcases hB : engineRun bnd fuel ⟨sB, m, i⟩
              (.resolve (if viaSync then .sync else .async) u) with ⟨rB, stB'⟩
          have hIH := ih sA sB m i (.resolve (if viaSync then .sync else .async) u) ht hs
          rw [hA, hB] at hIH
          obtain ⟨hr, hmon, hinv, hsing⟩ := hIH
          obtain ⟨s', m', i'⟩ := st'
          obtain ⟨sB', mB', iB'⟩ := stB'
          simp only at hr hmon hinv hsing
          have hr' := hr.symm
          have hmon' := hmon.symm
          have hinv' := hinv.symm
          subst hr' hmon' hinv'
          have ht' : t ∈ m'.resolutionSet := by
            have he := (engineRun_evolves bnd fuel ⟨sA, m, i⟩
              (.resolve (if viaSync then .sync else .async) u)).1
            rw [hA] at he
            exact monGrows_mem he ht
          cases r with
          | ok v => exact ih s' sB' m' i' (.runA isAsync (acc ++ [v]) rest) ht' hsing
          | error e => refine ⟨?_, ?_, ?_, hsing⟩ <;> trivial
    | resolve mode ts =>
      simp only [engineRun]
      by_cases hIn : m.hasInStack ts
      · simp only [if_pos hIn]
        refine ⟨?_, ?_, ?_, hs⟩ <;> trivial
      · simp only [if_neg hIn]
        have hne : ts.symbol ≠ t := by
          intro he
          apply hIn
          simp [Monitor.hasInStack]
          exact he ▸ ht
        rcases hbnd : lookupA bnd ts.symbol with _ | w <;> simp only [hbnd]
        · refine ⟨?_, ?_, ?_, hs⟩ <;> trivial
        · have hcache : lookupA sB ts.symbol = lookupA sA ts.symbol :=
            hs ts.symbol hne
          have htA : t ∈ (m.add ts).resolutionSet := by
            simp [Monitor.add]
            exact .inl ht
          have hrunIH := fun isA =>
            ih sA sB (m.add ts) (i ++ [ts.symbol]) (.runA isA [] w.creator.act) htA hs
          cases mode with
          | sync =>
            cases hA : w.creator.isAsync with
            | true =>
              simp only [hA]
              by_cases hsc : w.scope.getD ScopeSingleton = ScopeSingleton
              · simp only [if_pos hsc, hcache]
                rcases hca : lookupA sA ts.symbol with _ | v <;> simp only [hca]
                · refine ⟨?_, ?_, ?_, hs⟩ <;> trivial
                · cases hv : v.truthy with
                  | true => refine ⟨?_, ?_, ?_, hs⟩ <;> trivial
                  | false => refine ⟨?_, ?_, ?_, hs⟩ <;> trivial
              · simp only [if_neg hsc]
                refine ⟨?_, ?_, ?_, hs⟩ <;> trivial
            | false =>
              simp only [Bool.false_eq_true, if_false]
              rcases hresA : engineRun bnd fuel ⟨sA, m.add ts, i ++ [ts.symbol]⟩
                  (.runA false [] w.creator.act) with ⟨r', st₂⟩
              rcases hresB : engineRun bnd fuel ⟨sB, m.add ts, i ++ [ts.symbol]⟩
                  (.runA false [] w.creator.act) with ⟨rB', stB₂⟩
              have hIH := hrunIH false
              rw [hresA, hresB] at hIH
              obtain ⟨hr, hmon, hinv, hsing⟩ := hIH
              obtain ⟨s₂, m₂, i₂⟩ := st₂
              obtain ⟨sB₂, mB₂, iB₂⟩ := stB₂
              simp only at hr hmon hinv hsing
              have hr2 := hr.symm
              have hmon2 := hmon.symm
              have hinv2 := hinv.symm
              subst hr2 hmon2 hinv2
              by_cases hsc : w.scope.getD ScopeSingleton = ScopeSingleton
              · simp only [if_pos hsc, hcache]
                rcases hca : lookupA sA ts.symbol with _ | v <;> simp only [hca]
                · cases r' with
                  | ok rv =>
                    refine ⟨rfl, rfl, rfl, ?_⟩
                    intro k hk
                    by_cases hk' : k = ts.symbol
                    · subst hk'
                      simp [lookupA_setA_self]
                    · simp only [lookupA_setA_ne _ _ _ _ hk']
                      exact hsing k hk
                  | error e' => exact ⟨rfl, rfl, rfl, hsing⟩
                · cases hv : v.truthy with
                  | true => refine ⟨?_, ?_, ?_, hs⟩ <;> trivial
                  | false =>
                    simp only [Bool.false_eq_true, if_false]
                    cases r' with
                    | ok rv =>
                      refine ⟨rfl, rfl, rfl, ?_⟩
                      intro k hk
                      by_cases hk' : k = ts.symbol
                      · subst hk'
                        simp [lookupA_setA_self]
                      · simp only [lookupA_setA_ne _ _ _ _ hk']
                        exact hsing k hk
                    | error e' => exact ⟨rfl, rfl, rfl, hsing⟩
              · simp only [if_neg hsc]
                cases r' with
                | ok rv => exact ⟨rfl, rfl, rfl, hsing⟩
                | error e' => exact ⟨rfl, rfl, rfl, hsing⟩
          | async =>
            rcases hresA : engineRun bnd fuel ⟨sA, m.add ts, i ++ [ts.symbol]⟩
                (.runA w.creator.isAsync [] w.creator.act) with ⟨r', st₂⟩
            rcases hresB : engineRun bnd fuel ⟨sB, m.add ts, i ++ [ts.symbol]⟩
                (.runA w.creator.isAsync [] w.creator.act) with ⟨rB', stB₂⟩
            have hIH := hrunIH w.creator.isAsync
            rw [hresA, hresB] at hIH
            obtain ⟨hr, hmon, hinv, hsing⟩ := hIH
            obtain ⟨s₂, m₂, i₂⟩ := st₂
            obtain ⟨sB₂, mB₂, iB₂⟩ := stB₂
            simp only at hr hmon hinv hsing
            have hr2 := hr.symm
            have hmon2 := hmon.symm
            have hinv2 := hinv.symm
            subst hr2 hmon2 hinv2
            by_cases hsc : w.scope.getD ScopeSingleton = ScopeSingleton
            · simp only [if_pos hsc, hcache]
              rcases hca : lookupA sA ts.symbol with _ | v <;> simp only [hca]
              · cases r' with
                | ok rv =>
                  refine ⟨rfl, rfl, rfl, ?_⟩
                  intro k hk
                  by_cases hk' : k = ts.symbol
                  · subst hk'
                    simp [lookupA_setA_self]
                  · simp only [lookupA_setA_ne _ _ _ _ hk']
                    exact hsing k hk
                | error e' => exact ⟨rfl, rfl, rfl, hsing⟩
              · cases hv : v.truthy with
                | true => refine ⟨?_, ?_, ?_, hs⟩ <;> trivial
                | false =>
                  simp only [Bool.false_eq_true, if_false]
                  cases r' with
                  | ok rv =>
                    refine ⟨rfl, rfl, rfl, ?_⟩
                    intro k hk
                    by_cases hk' : k = ts.symbol
                    · subst hk'
                      simp [lookupA_setA_self]
                    · simp only [lookupA_setA_ne _ _ _ _ hk']
                      exact hsing k hk
                  | error e' => exact ⟨rfl, rfl, rfl, hsing⟩
            · simp only [if_neg hsc]
              cases r' with
              | ok rv => exact ⟨rfl, rfl, rfl, hsing⟩
              | error e' => exact ⟨rfl, rfl, rfl, hsing⟩

end TypeWire

namespace TypeWire

/-- For a non-singleton-scoped wire, the resolution of its symbol is blind
to the symbol's own cache entry: two starting caches agreeing off the
symbol give the same result and stay in agreement off the symbol. -/
theorem resolve_nonsingleton_blind (bnd : List (Nat × TypeWire)) (fuel : Nat)
    (mode : Mode) (sA sB : List (Nat × Value)) (m : Monitor) (i : List Nat)
    (ts : TypeSymbol) (w : TypeWire)
    (hbnd : lookupA bnd ts.symbol = some w)
    (hsc : ¬ w.scope.getD ScopeSingleton = ScopeSingleton)
    (hs : ∀ k, k ≠ ts.symbol → lookupA sB k = lookupA sA k) :
    (engineRun bnd fuel ⟨sB, m, i⟩ (.resolve mode ts)).1
      = (engineRun bnd fuel ⟨sA, m, i⟩ (.resolve mode ts)).1 ∧
    (∀ k, k ≠ ts.symbol →
      lookupA (engineRun bnd fuel ⟨sB, m, i⟩ (.resolve mode ts)).2.singletons k
        = lookupA (engineRun bnd fuel ⟨sA, m, i⟩ (.resolve mode ts)).2.singletons k) := by
  cases fuel with
  | zero => exact ⟨rfl, hs⟩
  | succ fuel =>
    simp only [engineRun]
    by_cases hIn : m.hasInStack ts
    · simp only [if_pos hIn]
      exact ⟨trivial, hs⟩
    · simp only [if_neg hIn, hbnd, if_neg hsc]
      have htA : ts.symbol ∈ (m.add ts).resolutionSet := by
        simp [Monitor.add]
      have hrun := fun isA => engineRun_cacheBlind bnd ts.symbol fuel sA sB
        (m.add ts) (i ++ [ts.symbol]) (.runA isA [] w.creator.act) htA hs
      cases mode with
      | sync =>
        cases hA : w.creator.isAsync with
        | true => exact ⟨rfl, hs⟩
        | false =>
          simp only [Bool.false_eq_true, if_false]
          rcases hresA : engineRun bnd fuel ⟨sA, m.add ts, i ++ [ts.symbol]⟩
              (.runA false [] w.creator.act) with ⟨r', st₂⟩
          rcases hresB : engineRun bnd fuel ⟨sB, m.add ts, i ++ [ts.symbol]⟩
              (.runA false [] w.creator.act) with ⟨rB', stB₂⟩
          have hIH := hrun false
          rw [hresA, hresB] at hIH
          obtain ⟨hr, hmon, hinv, hsing⟩ := hIH
          obtain ⟨s₂, m₂, i₂⟩ := st₂
          obtain ⟨sB₂, mB₂, iB₂⟩ := stB₂
          simp only at hr hmon hinv hsing
          have hr2 := hr.symm
          have hmon2 := hmon.symm
          have hinv2 := hinv.symm
          subst hr2 hmon2 hinv2
          cases r' with
          | ok rv => exact ⟨rfl, hsing⟩
          | error e' => exact ⟨rfl, hsing⟩
      | async =>
        rcases hresA : engineRun bnd fuel ⟨sA, m.add ts, i ++ [ts.symbol]⟩
            (.runA w.creator.isAsync [] w.creator.act) with ⟨r', st₂⟩
        rcases hresB : engineRun bnd fuel ⟨sB, m.add ts, i ++ [ts.symbol]⟩
            (.runA w.creator.isAsync [] w.creator.act) with ⟨rB', stB₂⟩
        have hIH := hrun w.creator.isAsync
        rw [hresA, hresB] at hIH
        obtain ⟨hr, hmon, hinv, hsing⟩ := hIH
        obtain ⟨s₂, m₂, i₂⟩ := st₂
        obtain ⟨sB₂, mB₂, iB₂⟩ := stB₂
        simp only at hr hmon hinv hsing
        have hr2 := hr.symm
        have hmon2 := hmon.symm
        have hinv2 := hinv.symm
        subst hr2 hmon2 hinv2
        cases r' with
        | ok rv => exact ⟨rfl, hsing⟩
        | error e' => exact ⟨rfl, hsing⟩

end TypeWire

namespace TypeWire

/-- Claim C10: for every token, if a resolution of that token — top-level
or nested (the monitor state is arbitrary), blocking or suspending — fails
with any error (`BindingNotFound`, `AsyncOnlyBinding`,
`CircularDependency`, an error thrown by the creator, or a model artifact),
then the singleton cache entry for that token is exactly what it was before
the resolution began; in particular a failed resolution never adds a cache
entry for the token it failed on. -/
theorem claim_C10_failed_resolution_preserves_own_cache_entry
    (fuel : Nat) (mode : Mode) (bnd : List (Nat × TypeWire)) (st : RunState)
    (ts : TypeSymbol) (e : RErr)
    (h : (resolveFuel fuel mode bnd st ts).1 = .error e) :
    lookupA (resolveFuel fuel mode bnd st ts).2.singletons ts.symbol
      = lookupA st.singletons ts.symbol := by
  have hfail : ∀ v, (engineRun bnd fuel st (.resolve mode ts)).1 ≠ .ok v := by
    intro v hv
    simp only [resolveFuel] at h
    rw [h] at hv
    exact Except.noConfusion hv
  exact resolve_error_own_entry bnd fuel mode st ts hfail

/-- Concrete run state for the C10 witness: an unrelated-looking cache
entry already sits under symbol 5, and nothing is bound. -/
def c10St : RunState := ⟨[(5, Value.vObj 9)], freshMonitor 1 none, []⟩

/-- The token the C10 witness resolves. -/
def c10Ts : TypeSymbol := ⟨5, some "x"⟩

/-- The error the C10 witness run fails with. -/
def c10Err : RErr :=
  .twError ⟨ReasonBindingNotFound,
    some ("Failed To Resolve x\nReason: BindingNotFound\nInstruction: " ++
      "Ensure the dependency is registered in the container before " ++
      "attempting resolution.\nResolution Path: [x]\n"), some 1⟩

/-- Witness for C10: resolving an unbound token fails, and a pre-existing
cache entry under that token's symbol survives untouched. -/
theorem claim_C10_witness :
    (resolveFuel 3 .sync [] c10St c10Ts).1 = .error c10Err ∧
    lookupA (resolveFuel 3 .sync [] c10St c10Ts).2.singletons 5
      = lookupA c10St.singletons 5 :=
  ⟨by decide,
   claim_C10_failed_resolution_preserves_own_cache_entry 3 .sync []
     c10St c10Ts c10Err (by decide)⟩

/-- Claim C9: for every wire whose scope is any string other than exactly
`"singleton"` (for example `"transient"`, `"request"`, or any unrecognized
string), every resolution of its token — blocking or suspending — leaves
the token's singleton cache entry untouched, invokes the creator exactly
once more on success, and is blind to the token's cache entry: replacing
the cache by any cache agreeing off the token changes neither the result
nor the cache off the token.  Only an absent scope or exactly
`"singleton"` caches. -/
theorem claim_C9_nonsingleton_scope_never_uses_cache
    (fuel : Nat) (mode : Mode) (c : Container) (inv : List Nat)
    (ts : TypeSymbol) (w : TypeWire) (s : String)
    (hbnd : lookupA c.bindings ts.symbol = some w)
    (hscope : w.scope = some s) (hts : s ≠ ScopeSingleton) :
    lookupA (containerResolve fuel mode c inv ts).2.1.singletons ts.symbol
      = lookupA c.singletons ts.symbol ∧
    (∀ v, (containerResolve fuel mode c inv ts).1 = .ok v →
      List.count ts.symbol (containerResolve fuel mode c inv ts).2.2
        = List.count ts.symbol inv + 1) ∧
    (∀ sB, (∀ k, k ≠ ts.symbol → lookupA sB k = lookupA c.singletons k) →
      (containerResolve fuel mode { c with singletons := sB } inv ts).1
        = (containerResolve fuel mode c inv ts).1 ∧
      ∀ k, k ≠ ts.symbol →
        lookupA (containerResolve fuel mode
            { c with singletons := sB } inv ts).2.1.singletons k
          = lookupA (containerResolve fuel mode c inv ts).2.1.singletons k) := by
  have hsc : ¬ w.scope.getD ScopeSingleton = ScopeSingleton := by
    rw [hscope]
    simpa using hts
  refine ⟨?_, ?_, ?_⟩
  · exact resolve_nonsingleton_own_entry c.bindings fuel mode _ ts w hbnd hsc
  · intro v hv
    exact resolve_ok_invokes_once c.bindings fuel mode _ ts w v
      (by simp [freshMonitor]) hbnd (fun hsing => absurd hsing hsc) hv
  · intro sB hsB
    have := resolve_nonsingleton_blind c.bindings fuel mode c.singletons sB
      (freshMonitor (getNextRequestId c.requestSequence) c.numberOfPathsToPrint)
      inv ts w hbnd hsc hsB
    exact ⟨this.1, this.2⟩

/-- The `"transient"`-scoped wire of the C9 witness. -/
def c9Wire : TypeWire :=
  .mk ⟨0, some "t"⟩ ⟨false, .finish fun _ => .ok (.vObj 3)⟩ (some "transient") none

/-- The container of the C9 witness. -/
def c9Cont : Container := Container.new.bindW c9Wire

/-- Witness for C9: a `"transient"`-scoped wire, resolved blocking. -/
theorem claim_C9_witness :
    (lookupA c9Cont.bindings 0 = some c9Wire ∧
     c9Wire.scope = some "transient" ∧
     ("transient" : String) ≠ ScopeSingleton) ∧
    lookupA (containerResolve 5 .sync c9Cont [] ⟨0, some "t"⟩).2.1.singletons 0
      = lookupA c9Cont.singletons 0 :=
  ⟨⟨rfl, rfl, by decide⟩,
   (claim_C9_nonsingleton_scope_never_uses_cache 5 .sync c9Cont [] ⟨0, some "t"⟩
     c9Wire "transient" rfl rfl (by decide)).1⟩

end TypeWire

namespace TypeWire

/-! ## Claim C1: singleton caching under falsy values -/

/-- The singleton wire of the C1 failing input: its creator synchronously
returns the falsy value `0` (a legitimate value for, say, a numeric
configuration wire). -/
def c1Wire : TypeWire :=
  .mk ⟨0, some "zero"⟩ ⟨false, .finish fun _ => .ok (.vNum 0)⟩ none none

/-- A fresh container with only `c1Wire` bound. -/
def c1Cont : Container := Container.new.bindW c1Wire

/-- First top-level blocking resolution of the C1 failing input. -/
def c1Run1 : Except RErr Value × Container × List Nat :=
  containerResolve 10 .sync c1Cont [] ⟨0, some "zero"⟩

/-- Second top-level blocking resolution, continuing from the first. -/
def c1Run2 : Except RErr Value × Container × List Nat :=
  containerResolve 10 .sync c1Run1.2.1 c1Run1.2.2 ⟨0, some "zero"⟩

/-- Claim C1 (code bug, evaluated at the failing input): the wire is bound
with the default singleton scope, both resolutions succeed with `0`, the
first resolution does cache `0` — yet the creator runs again on the second
resolution (invocation count 2), because the cache-hit test
`if (singleton)` uses JS truthiness instead of key presence, so a falsy
cached value is never served.  The claim's "creator is invoked at most
once" fails. -/
theorem claim_C1_falsy_singleton_reinvokes_creator :
    c1Wire.scope = none ∧
    c1Run1.1 = .ok (.vNum 0) ∧
    lookupA c1Run1.2.1.singletons 0 = some (.vNum 0) ∧
    c1Run2.1 = .ok (.vNum 0) ∧
    List.count 0 c1Run2.2.2 = 2 := by decide

/-! ## Claim C2: cycle detection and completed tokens -/

/-- The shared dependency of the C2 failing input. -/
def c2D : TypeWire :=
  .mk ⟨1, some "D"⟩ ⟨false, .finish fun _ => .ok (.vObj 1)⟩ none none

/-- The parent wire of the C2 failing input: its creator resolves `D`
twice in sequence (as a creator with a repeated — diamond-shaped —
dependency does). -/
def c2P : TypeWire :=
  .mk ⟨0, some "P"⟩
    ⟨false, .call true ⟨1, some "D"⟩ (.call true ⟨1, some "D"⟩
      (.finish fun _ => .ok (.vObj 2)))⟩
    none none

/-- Container with `D` and `P` bound. -/
def c2Cont : Container := (Container.new.bindW c2D).bindW c2P

/-- Top-level blocking resolution of `P`. -/
def c2Run : Except RErr Value × Container × List Nat :=
  containerResolve 10 .sync c2Cont [] ⟨0, some "P"⟩

/-- Claim C2 (code bug, evaluated at the failing input): the first
resolution of `D` completes — its creator ran once and its value is
cached — so `D` is no longer in flight; yet the second resolution of `D`
within the same chain fails the whole resolution with
`CircularDependency` (path `P -> D -> D`), because
`CircularDependencyMonitor` never removes a completed symbol from its
resolution set.  The claim's "exactly when a token is re-entered while it
is already in-flight" fails in the only-if direction. -/
theorem claim_C2_completed_token_reported_as_cycle :
    List.count 1 c2Run.2.2 = 1 ∧
    lookupA c2Run.2.1.singletons 1 = some (.vObj 1) ∧
    c2Run.1 = .error (.twError ⟨ReasonCircularDependency,
      some ("Failed To Resolve D\nReason: CircularDependency\nInstruction: " ++
        "Check for circular references in your dependency graph and refactor " ++
        "to break the cycle.\nResolution Path: [P -> D -> D]\n"), some 1⟩) := by
  decide

end TypeWire

namespace TypeWire

/-! ## Claim C4: error-path truncation -/

/-- The four-entry resolution stack of the C4 counterexample. -/
def c4Stack : List TypeSymbol :=
  [⟨0, some "a"⟩, ⟨1, some "b"⟩, ⟨2, some "c"⟩, ⟨3, some "d"⟩]

/-- Counterexample to C4 as stated: with `numberOfPathsToPrint = 1` and the
stack `a, b, c, d` (most recent last), the claim predicts a front-truncated
rendering `truncated(1)... , d` keeping exactly the most recent entry; the
code instead keeps the two oldest entries and appends a plain
`truncated...` marker at the end. -/
theorem claim_C4_counterexample :
    formatDependencyPath none c4Stack (some 1) = ["a", "b", "truncated..."] ∧
    formatDependencyPath none c4Stack (some 1) ≠ ["truncated(1)...", "d"] := by
  decide

/-- The loop of `formatDependencyPath`, solved: entering with `counts = c`
(for positive `maxNumberOfPaths = N` and `c ≤ N + 1`) it emits the first
`N + 1 - c` descriptions and counts them. -/
theorem pathLoop_spec (N : Nat) (hN : 0 < N) :
    ∀ (stack : List TypeSymbol) (c : Nat), c ≤ N + 1 →
      pathLoop N c stack
        = (c + min stack.length (N + 1 - c),
           (stack.take (N + 1 - c)).map getDescription) := by
  intro stack
  induction stack with
  | nil => intro c hc; simp [pathLoop]
  | cons e rest ih =>
    intro c hc
    by_cases hcle : c ≤ N
    · rw [pathLoop, if_pos (Or.inr hcle), ih (c + 1) (by omega)]
      have htake : N + 1 - c = (N - c) + 1 := by omega
      refine Prod.ext ?_ ?_
      · have h1 := min_le_left rest.length (N + 1 - (c + 1))
        have h2 := min_le_right rest.length (N + 1 - (c + 1))
        have h3 := min_le_left (rest.length + 1) (N + 1 - c)
        have h4 := min_le_right (rest.length + 1) (N + 1 - c)
        simp only [List.length_cons]
        rcases Nat.le_total rest.length (N + 1 - (c + 1)) with hle | hle
        · rw [min_eq_left hle, min_eq_left (by omega)]
          omega
        · rw [min_eq_right hle, min_eq_right (by omega)]
          omega
      · simp only [htake]
        simp [List.take_succ_cons]
    · have hc1 : c = N + 1 := by omega
      rw [pathLoop, if_neg (by omega)]
      subst hc1
      simp

/-- Claim C4, amended to the code: for a positive limit `N`, the rendered
path keeps the *first* `N + 1` entries (the oldest, those nearest the
top-level request) and truncates the rest.  With no re-entered token
attached, a plain `truncated...` marker (with no count) is always appended
— even when nothing was dropped.  With a re-entered token attached
(circular-dependency errors), the token is kept only when the stack has at
most `N` entries, and the marker appears only when the stack exceeds
`N + 1` entries. -/
theorem claim_C4_truncation_keeps_oldest_entries (stack : List TypeSymbol)
    (requested : TypeSymbol) (N : Nat) (hN : 0 < N) :
    formatDependencyPath none stack (some N)
      = (stack.take (N + 1)).map getDescription ++ ["truncated..."] ∧
    formatDependencyPath (some requested) stack (some N)
      = (stack.take (N + 1)).map getDescription
        ++ (if stack.length ≤ N then [getDescription requested] else [])
        ++ (if N + 1 < stack.length then ["truncated..."] else []) := by
  have hloop := pathLoop_spec N hN stack 0 (by omega)
  have hNne : ¬ N = 0 := by omega
  constructor
  · simp only [formatDependencyPath, Option.getD, hloop]
    have hminl := min_le_left stack.length (N + 1)
    have hlt : min stack.length (N + 1) < 1 + stack.length := by omega
    simp [hNne, hlt]
  · simp only [formatDependencyPath, Option.getD, hloop]
    by_cases hle : stack.length ≤ N
    · have hmin : min stack.length (N + 1) = stack.length := min_eq_left (by omega)
      have hTake : List.take (N + 1) stack = stack :=
        List.take_of_length_le (show stack.length ≤ N + 1 by omega)
      simp [hNne, hmin, hle, hTake,
        (show ¬ (stack.length + 1 < stack.length) by omega),
        (show ¬ (N + 1 < stack.length) by omega)]
    · have hmin : min stack.length (N + 1) = N + 1 := min_eq_right (by omega)
      by_cases hgt : N + 1 < stack.length
      · simp [hNne, hmin, hle, hgt]
      · have hlen : stack.length = N + 1 := by omega
        simp [hNne, hmin, hle, hgt,
          (show ¬ (N + 1 ≤ N) by omega)]

/-- Witness for the amended C4: limit 1 against the four-entry stack, with
and without a re-entered token. -/
theorem claim_C4_witness :
    formatDependencyPath none c4Stack (some 1)
      = (c4Stack.take 2).map getDescription ++ ["truncated..."] ∧
    formatDependencyPath (some ⟨9, some "r"⟩) c4Stack (some 1)
      = (c4Stack.take 2).map getDescription
        ++ (if c4Stack.length ≤ 1 then [getDescription ⟨9, some "r"⟩] else [])
        ++ (if 2 < c4Stack.length then ["truncated..."] else []) :=
  claim_C4_truncation_keeps_oldest_entries c4Stack ⟨9, some "r"⟩ 1 (by decide)

end TypeWire

namespace TypeWire

/-! ## Claim C3: async creators and the blocking path -/

/-- Claim C3, amended to the code: for a wire whose creator returns a
pending asynchronous value (an `async` creator), blocking resolution fails
with `AsyncOnlyBinding` *provided no truthy cached singleton value for the
token is present* (if one is, `getSync` serves it without touching the
creator — see the counterexample); suspending resolution of the same token
succeeds with the creator's value. -/
theorem claim_C3_async_creator_blocking_vs_suspending
    (fuel : Nat) (c : Container) (inv : List Nat) (ts : TypeSymbol)
    (w : TypeWire) (f : List Value → Except RErr Value) (v : Value)
    (hbnd : lookupA c.bindings ts.symbol = some w)
    (hasync : w.creator.isAsync = true)
    (hmiss : ∀ u, lookupA c.singletons ts.symbol = some u → u.truthy = false) :
    reasonOf (containerResolve (fuel + 2) .sync c inv ts).1
      = some ReasonAsyncOnlyBinding ∧
    (w.creator.act = .finish f → f [] = .ok v →
      (containerResolve (fuel + 2) .async c inv ts).1 = .ok v) := by
  constructor
  · simp only [containerResolve, resolveFuel, engineRun, freshMonitor,
      Monitor.hasInStack, List.contains, if_neg]
    simp only [hbnd, hasync]
    by_cases hsc : w.scope.getD ScopeSingleton = ScopeSingleton
    · simp only [if_pos hsc]
      rcases hca : lookupA c.singletons ts.symbol with _ | u <;> simp only [hca]
      · simp [reasonOf, annotateErr, asyncOnlyErr, RErr.reason?]
      · rw [hmiss u hca]
        simp [reasonOf, annotateErr, asyncOnlyErr, RErr.reason?]
    · simp only [if_neg hsc]
      simp [reasonOf, annotateErr, asyncOnlyErr, RErr.reason?]
  · intro hact hv
    simp only [containerResolve, resolveFuel, engineRun, freshMonitor,
      Monitor.hasInStack, List.contains, if_neg]
    simp only [hbnd, hact, engineRun, hv]
    by_cases hsc : w.scope.getD ScopeSingleton = ScopeSingleton
    · simp only [if_pos hsc]
      rcases hca : lookupA c.singletons ts.symbol with _ | u <;> simp only [hca]
      · simp
      · rw [hmiss u hca]
        simp
    · simp only [if_neg hsc]
      simp

/-- The singleton-scoped `async` wire of the C3 counterexample. -/
def c3Wire : TypeWire :=
  .mk ⟨0, some "a"⟩ ⟨true, .finish fun _ => .ok (.vObj 7)⟩ none none

/-- Container with only `c3Wire` bound. -/
def c3Cont : Container := Container.new.bindW c3Wire

/-- A first suspending resolution, which caches the value. -/
def c3Run1 : Except RErr Value × Container × List Nat :=
  containerResolve 10 .async c3Cont [] ⟨0, some "a"⟩

/-- A subsequent blocking resolution of the same token. -/
def c3Run2 : Except RErr Value × Container × List Nat :=
  containerResolve 10 .sync c3Run1.2.1 c3Run1.2.2 ⟨0, some "a"⟩

/-- Counterexample to C3 as stated: once a suspending resolution has cached
the singleton value, a blocking resolution of the same async-creator token
*succeeds* from the cache instead of always failing with
`AsyncOnlyBinding`. -/
theorem claim_C3_counterexample :
    c3Run1.1 = .ok (.vObj 7) ∧
    c3Run2.1 = .ok (.vObj 7) ∧
    reasonOf c3Run2.1 ≠ some ReasonAsyncOnlyBinding := by decide

/-- Witness for the amended C3: the async wire on a fresh (empty-cache)
container. -/
theorem claim_C3_witness :
    (lookupA c3Cont.bindings 0 = some c3Wire ∧
     c3Wire.creator.isAsync = true) ∧
    reasonOf (containerResolve 3 .sync c3Cont [] ⟨0, some "a"⟩).1
      = some ReasonAsyncOnlyBinding ∧
    (containerResolve 3 .async c3Cont [] ⟨0, some "a"⟩).1 = .ok (.vObj 7) := by
  have h := claim_C3_async_creator_blocking_vs_suspending 1 c3Cont []
    ⟨0, some "a"⟩ c3Wire (fun _ => .ok (.vObj 7)) (.vObj 7) rfl rfl
    (fun u hu => by
      rw [show lookupA c3Cont.singletons 0 = none from rfl] at hu
      exact Option.noConfusion hu)
  exact ⟨⟨rfl, rfl⟩, h.1, h.2 rfl rfl⟩

end TypeWire

namespace TypeWire

/-! ## Claim C5: per-request monitors under concurrent resolution -/

/-- Invariant of the two-chain interleaving: each chain's own fresh
monitor holds at most its own entry for the token, a chain that has not
started yet has an empty monitor, and a finished chain finished with a
success — having ensured the shared cache holds a value. -/
def ConcInv (tSym : Nat) (s : ConcState) : Prop :=
  (s.mon1 = [] ∨ s.mon1 = [tSym]) ∧
  (s.mon2 = [] ∨ s.mon2 = [tSym]) ∧
  (s.phase1 = .ready → s.mon1 = []) ∧
  (s.phase2 = .ready → s.mon2 = []) ∧
  (∀ r, s.phase1 = .finished r → (∃ v, r = .ok v) ∧ s.cache.isSome) ∧
  (∀ r, s.phase2 = .finished r → (∃ v, r = .ok v) ∧ s.cache.isSome)

theorem concInit_inv (tSym : Nat) (cache : Option Value) :
    ConcInv tSym (concInit cache) := by
  refine ⟨.inl rfl, .inl rfl, fun _ => rfl, fun _ => rfl, ?_, ?_⟩ <;>
    (intro r hr; simp [concInit] at hr)

theorem concStep_inv (tSym : Nat) (produced : Nat → Value) (s : ConcState)
    (b : Bool) (h : ConcInv tSym s) :
    ConcInv tSym (concStep tSym produced s b) := by
  obtain ⟨hm1, hm2, hr1, hr2, hf1, hf2⟩ := h
  cases b with
  | true =>
    cases hp : s.phase1 with
    | ready =>
      have hm : s.mon1 = [] := hr1 hp
      cases hc : s.cache with
      | none =>
        have hstep : chainStep tSym produced none s.invCount .ready []
            = (none, s.invCount + 1, .creating (produced s.invCount), [tSym]) := by
          simp [chainStep]
        simp only [concStep, hp, hm, hc, hstep]
        refine ⟨.inr rfl, hm2, fun h' => ChainPhase.noConfusion h', hr2,
          fun r hr => ChainPhase.noConfusion hr, fun r hr => ?_⟩
        have := hf2 r hr
        rw [hc] at this
        simp at this
      | some v =>
        cases hv : v.truthy with
        | true =>
          have hstep : chainStep tSym produced (some v) s.invCount .ready []
              = (some v, s.invCount, .finished (.ok v), [tSym]) := by
            simp [chainStep, hv]
          simp only [concStep, hp, hm, hc, hstep]
          refine ⟨.inr rfl, hm2, fun h' => ChainPhase.noConfusion h', hr2,
            fun r hr => ?_, fun r hr => ⟨(hf2 r hr).1, rfl⟩⟩
          have hr' : Except.ok v = r := by
            have := ChainPhase.finished.inj hr
            exact this
          exact ⟨⟨v, hr'.symm⟩, rfl⟩
        | false =>
          have hstep : chainStep tSym produced (some v) s.invCount .ready []
              = (some v, s.invCount + 1, .creating (produced s.invCount), [tSym]) := by
            simp [chainStep, hv]
          simp only [concStep, hp, hm, hc, hstep]
          exact ⟨.inr rfl, hm2, fun h' => ChainPhase.noConfusion h', hr2,
            fun r hr => ChainPhase.noConfusion hr,
            fun r hr => ⟨(hf2 r hr).1, rfl⟩⟩
    | creating v =>
      have hstep : chainStep tSym produced s.cache s.invCount (.creating v) s.mon1
          = (some v, s.invCount, .finished (.ok v), s.mon1) := by
        simp [chainStep]
      simp only [concStep, hp, hstep]
      refine ⟨hm1, hm2, fun h' => ChainPhase.noConfusion h', hr2,
        fun r hr => ?_, fun r hr => ⟨(hf2 r hr).1, rfl⟩⟩
      have hr' : Except.ok v = r := ChainPhase.finished.inj hr
      exact ⟨⟨v, hr'.symm⟩, rfl⟩
    | finished r₀ =>
      have hstep : chainStep tSym produced s.cache s.invCount (.finished r₀) s.mon1
          = (s.cache, s.invCount, .finished r₀, s.mon1) := by
        simp [chainStep]
      simp only [concStep, hp, hstep]
      exact ⟨hm1, hm2, fun h' => ChainPhase.noConfusion h', hr2,
        fun r hr => hf1 r (hp.trans hr), fun r hr => hf2 r hr⟩
  | false =>
    cases hp : s.phase2 with
    | ready =>
      have hm : s.mon2 = [] := hr2 hp
      cases hc : s.cache with
      | none =>
        have hstep : chainStep tSym produced none s.invCount .ready []
            = (none, s.invCount + 1, .creating (produced s.invCount), [tSym]) := by
          simp [chainStep]
        simp only [concStep, hp, hm, hc, hstep]
        refine ⟨hm1, .inr rfl, hr1, fun h' => ChainPhase.noConfusion h',
          fun r hr => ?_, fun r hr => ChainPhase.noConfusion hr⟩
        have := hf1 r hr
        rw [hc] at this
        simp at this
      | some v =>
        cases hv : v.truthy with
        | true =>
          have hstep : chainStep tSym produced (some v) s.invCount .ready []
              = (some v, s.invCount, .finished (.ok v), [tSym]) := by
            simp [chainStep, hv]
          simp only [concStep, hp, hm, hc, hstep]
          refine ⟨hm1, .inr rfl, hr1, fun h' => ChainPhase.noConfusion h',
            fun r hr => ⟨(hf1 r hr).1, rfl⟩, fun r hr => ?_⟩
          have hr' : Except.ok v = r := ChainPhase.finished.inj hr
          exact ⟨⟨v, hr'.symm⟩, rfl⟩
        | false =>
          have hstep : chainStep tSym produced (some v) s.invCount .ready []
              = (some v, s.invCount + 1, .creating (produced s.invCount), [tSym]) := by
            simp [chainStep, hv]
          simp only [concStep, hp, hm, hc, hstep]
          exact ⟨hm1, .inr rfl, hr1, fun h' => ChainPhase.noConfusion h',
            fun r hr => ⟨(hf1 r hr).1, rfl⟩,
            fun r hr => ChainPhase.noConfusion hr⟩
    | creating v =>
      have hstep : chainStep tSym produced s.cache s.invCount (.creating v) s.mon2
          = (some v, s.invCount, .finished (.ok v), s.mon2) := by
        simp [chainStep]
      simp only [concStep, hp, hstep]
      refine ⟨hm1, hm2, hr1, fun h' => ChainPhase.noConfusion h',
        fun r hr => ⟨(hf1 r hr).1, rfl⟩, fun r hr => ?_⟩
      have hr' : Except.ok v = r := ChainPhase.finished.inj hr
      exact ⟨⟨v, hr'.symm⟩, rfl⟩
    | finished r₀ =>
      have hstep : chainStep tSym produced s.cache s.invCount (.finished r₀) s.mon2
          = (s.cache, s.invCount, .finished r₀, s.mon2) := by
        simp [chainStep]
      simp only [concStep, hp, hstep]
      exact ⟨hm1, hm2, hr1, fun h' => ChainPhase.noConfusion h',
        fun r hr => hf1 r hr, fun r hr => hf2 r (hp.trans hr)⟩

theorem concRun_inv (tSym : Nat) (produced : Nat → Value) :
    ∀ (sched : List Bool) (s : ConcState), ConcInv tSym s →
      ConcInv tSym (concRun tSym produced sched s) := by
  intro sched
  induction sched with
  | nil => intro s h; exact h
  | cons b rest ih =>
    intro s h
    exact ih _ (concStep_inv tSym produced s b h)

end TypeWire

namespace TypeWire

/-- Claim C5: two concurrent top-level resolutions of the same singleton
token — each with its own fresh, never-shared monitor (`mon1`/`mon2`,
initialized empty per top-level call, exactly as
`getScopedResolutionContext` builds a fresh `CircularDependencyMonitor`
per `get`/`getSync`) — never fail with `CircularDependency` on account of
each other under any cooperative interleaving: whenever both complete,
both succeeded, and the shared singleton cache holds exactly one value
for the token; each chain's monitor only ever holds its own entry. -/
theorem claim_C5_concurrent_singleton_resolutions_safe
    (tSym : Nat) (produced : Nat → Value) (cache0 : Option Value)
    (sched : List Bool) (r₁ r₂ : Except RErr Value)
    (h₁ : (concRun tSym produced sched (concInit cache0)).phase1 = .finished r₁)
    (h₂ : (concRun tSym produced sched (concInit cache0)).phase2 = .finished r₂) :
    (∃ v, r₁ = .ok v) ∧ (∃ v, r₂ = .ok v) ∧
    reasonOf r₁ ≠ some ReasonCircularDependency ∧
    reasonOf r₂ ≠ some ReasonCircularDependency ∧
    (∃ x, (concRun tSym produced sched (concInit cache0)).cache = some x) ∧
    ((concRun tSym produced sched (concInit cache0)).mon1 = [] ∨
      (concRun tSym produced sched (concInit cache0)).mon1 = [tSym]) ∧
    ((concRun tSym produced sched (concInit cache0)).mon2 = [] ∨
      (concRun tSym produced sched (concInit cache0)).mon2 = [tSym]) := by
  have hinv := concRun_inv tSym produced sched (concInit cache0)
    (concInit_inv tSym cache0)
  obtain ⟨hm1, hm2, -, -, hf1, hf2⟩ := hinv
  obtain ⟨⟨v₁, hv₁⟩, hsome⟩ := hf1 r₁ h₁
  obtain ⟨⟨v₂, hv₂⟩, -⟩ := hf2 r₂ h₂
  refine ⟨⟨v₁, hv₁⟩, ⟨v₂, hv₂⟩, ?_, ?_, ?_, hm1, hm2⟩
  · rw [hv₁]; simp [reasonOf]
  · rw [hv₂]; simp [reasonOf]
  · rcases hx : (concRun tSym produced sched (concInit cache0)).cache with _ | x
    · rw [hx] at hsome; simp at hsome
    · exact ⟨x, rfl⟩

/-- Witness for C5: a fully overlapped schedule — both chains start (and
miss the cache) before either completes, the creator runs twice producing
two distinct objects, neither chain fails, and the cache ends with exactly
the last-written value. -/
theorem claim_C5_witness :
    ((concRun 0 (fun n => Value.vObj n) [true, false, true, false]
        (concInit none)).phase1 = .finished (.ok (.vObj 0)) ∧
     (concRun 0 (fun n => Value.vObj n) [true, false, true, false]
        (concInit none)).phase2 = .finished (.ok (.vObj 1))) ∧
    (reasonOf (.ok (.vObj 0)) ≠ some ReasonCircularDependency ∧
     reasonOf (.ok (.vObj 1)) ≠ some ReasonCircularDependency ∧
     (∃ x, (concRun 0 (fun n => Value.vObj n) [true, false, true, false]
        (concInit none)).cache = some x)) := by
  have h := claim_C5_concurrent_singleton_resolutions_safe 0
    (fun n => Value.vObj n) none [true, false, true, false]
    (.ok (.vObj 0)) (.ok (.vObj 1)) (by decide) (by decide)
  exact ⟨⟨by decide, by decide⟩, h.2.2.1, h.2.2.2.1, h.2.2.2.2.1⟩

end TypeWire

namespace TypeWire

/-! ## Claim C6: `apply` — self-binding, import binding, cache eviction,
idempotence -/

/-- One-step unfolding of `TypeWire.apply` (it is defined by well-founded
recursion, so we record its equation once). -/
theorem apply_unfold (t : TypeSymbol) (cr : Creator) (sc : Option String)
    (imps : Option (List TypeWire)) (c : Container) :
    TypeWire.apply (.mk t cr sc imps) c =
      (let c₁ := match imps with
        | none => c
        | some deps => applyDeps deps c
       let c₂ := if c₁.isBound t then c₁.unbind t else c₁
       c₂.bindW (.mk t cr sc imps)) := by
  rw [TypeWire.apply.eq_def]

theorem applyDeps_nil (c : Container) : applyDeps [] c = c := by
  rw [applyDeps.eq_def]

theorem applyDeps_cons (d : TypeWire) (rest : List TypeWire) (c : Container) :
    applyDeps (d :: rest) c =
      applyDeps rest (if c.isBound d.type then c else d.apply c) := by
  rw [applyDeps.eq_def]

theorem isBound_iff (c : Container) (t : TypeSymbol) :
    c.isBound t = true ↔ lookupA c.bindings t.symbol ≠ none := by
  cases h : lookupA c.bindings t.symbol <;>
    simp [Container.isBound, hasA, h]

theorem container_ext (x y : Container) (h1 : x.bindings = y.bindings)
    (h2 : x.singletons = y.singletons)
    (h3 : x.requestSequence = y.requestSequence)
    (h4 : x.numberOfPathsToPrint = y.numberOfPathsToPrint) : x = y := by
  cases x
  cases y
  simp_all

end TypeWire

namespace TypeWire

mutual

/-- `apply` never removes a pre-existing binding for any symbol. -/
theorem apply_keeps_binding (w : TypeWire) (c : Container) (k : Nat)
    (h : lookupA c.bindings k ≠ none) :
    lookupA (w.apply c).bindings k ≠ none := by
  obtain ⟨t, cr, sc, imps⟩ := w
  rw [apply_unfold]
  have h₁ : lookupA (match imps with
      | none => c
      | some deps => applyDeps deps c).bindings k ≠ none := by
    cases imps with
    | none => exact h
    | some deps => exact applyDeps_keeps_binding deps c k h
  generalize (match imps with
      | none => c
      | some deps => applyDeps deps c) = c₁ at h₁ ⊢
  simp only [Container.bindW, TypeWire.type]
  by_cases hk : t.symbol = k
  · subst hk
    simp [lookupA_setA_self]
  · rw [lookupA_setA_ne _ _ _ _ (Ne.symm hk)]
    by_cases hb : c₁.isBound t
    · rw [if_pos hb]
      simp only [Container.unbind]
      rw [lookupA_eraseA_ne _ _ _ (Ne.symm hk)]
      exact h₁
    · rw [if_neg hb]
      exact h₁
termination_by sizeOf w

/-- The import loop of `apply` never removes a pre-existing binding. -/
theorem applyDeps_keeps_binding (l : List TypeWire) (c : Container) (k : Nat)
    (h : lookupA c.bindings k ≠ none) :
    lookupA (applyDeps l c).bindings k ≠ none := by
  match l with
  | [] =>
    rw [applyDeps_nil]
    exact h
  | d :: rest =>
    rw [applyDeps_cons]
    refine applyDeps_keeps_binding rest _ k ?_
    by_cases hb : c.isBound d.type
    · rw [if_pos hb]
      exact h
    · rw [if_neg hb]
      exact apply_keeps_binding d c k h
termination_by sizeOf l

end

end TypeWire

namespace TypeWire

/-- The reachable-container invariant: every symbol with a cached singleton
value is bound.  It holds for a fresh container and is preserved by every
container operation (`bind` only adds a binding, `unbind` removes the
binding and the cached value together, and resolution caches a value only
after finding a binding for the symbol). -/
def ContainerInv (c : Container) : Prop :=
  ∀ k, lookupA c.singletons k ≠ none → lookupA c.bindings k ≠ none

theorem containerInv_new (n : Option Nat) : ContainerInv (Container.new n) := by
  intro k hk
  simp [Container.new, lookupA] at hk

theorem containerInv_bindW (c : Container) (w : TypeWire)
    (h : ContainerInv c) : ContainerInv (c.bindW w) := by
  intro k hk
  simp only [Container.bindW] at hk ⊢
  by_cases hkk : w.type.symbol = k
  · subst hkk
    simp [lookupA_setA_self]
  · rw [lookupA_setA_ne _ _ _ _ (Ne.symm hkk)]
    exact h k hk

theorem containerInv_unbind (c : Container) (ts : TypeSymbol)
    (h : ContainerInv c) : ContainerInv (c.unbind ts) := by
  intro k hk
  simp only [Container.unbind] at hk ⊢
  by_cases hkk : k = ts.symbol
  · subst hkk
    rw [lookupA_eraseA_self] at hk
    exact absurd rfl hk
  · rw [lookupA_eraseA_ne _ _ _ hkk] at hk
    rw [lookupA_eraseA_ne _ _ _ hkk]
    exact h k hk

mutual

/-- `apply` preserves the reachable-container invariant. -/
theorem apply_inv (w : TypeWire) (c : Container) (h : ContainerInv c) :
    ContainerInv (w.apply c) := by
  obtain ⟨t, cr, sc, imps⟩ := w
  rw [apply_unfold]
  have h₁ : ContainerInv (match imps with
      | none => c
      | some deps => applyDeps deps c) := by
    cases imps with
    | none => exact h
    | some deps => exact applyDeps_inv deps c h
  generalize (match imps with
      | none => c
      | some deps => applyDeps deps c) = c₁ at h₁ ⊢
  show ContainerInv
    ((if c₁.isBound t then c₁.unbind t else c₁).bindW (TypeWire.mk t cr sc imps))
  by_cases hb : c₁.isBound t
  · rw [if_pos hb]
    exact containerInv_bindW _ _ (containerInv_unbind _ _ h₁)
  · rw [if_neg hb]
    exact containerInv_bindW _ _ h₁
termination_by sizeOf w

/-- The import loop of `apply` preserves the invariant. -/
theorem applyDeps_inv (l : List TypeWire) (c : Container)
    (h : ContainerInv c) : ContainerInv (applyDeps l c) := by
  match l with
  | [] =>
    rw [applyDeps_nil]
    exact h
  | d :: rest =>
    rw [applyDeps_cons]
    refine applyDeps_inv rest _ ?_
    by_cases hb : c.isBound d.type
    · rw [if_pos hb]
      exact h
    · rw [if_neg hb]
      exact apply_inv d c h
termination_by sizeOf l

end

end TypeWire

namespace TypeWire

/-- After `apply`, the wire's own symbol is bound to the wire itself (the
final `binder.bind(this)`). -/
theorem apply_binds_self (w : TypeWire) (c : Container) :
    lookupA (w.apply c).bindings w.type.symbol = some w := by
  obtain ⟨t, cr, sc, imps⟩ := w
  rw [apply_unfold]
  exact lookupA_setA_self _ _ _

/-- Every wire of the import loop ends up bound. -/
theorem applyDeps_binds_all (l : List TypeWire) (c : Container) :
    ∀ e ∈ l, lookupA (applyDeps l c).bindings e.type.symbol ≠ none := by
  induction l generalizing c with
  | nil =>
    intro e he
    simp at he
  | cons d rest ih =>
    intro e he
    rw [applyDeps_cons]
    rcases List.mem_cons.mp he with he | he
    · subst he
      refine applyDeps_keeps_binding rest _ _ ?_
      by_cases hb : c.isBound e.type
      · rw [if_pos hb]
        exact (isBound_iff _ _).mp hb
      · rw [if_neg hb]
        rw [apply_binds_self]
        simp
    · exact ih _ e he

/-- After `apply`, every declared import's symbol is bound.  (An import
already bound before the loop reached it is skipped but stays bound.) -/
theorem apply_imports_bound (w : TypeWire) (c : Container) :
    ∀ e ∈ w.imports.getD [], lookupA (w.apply c).bindings e.type.symbol ≠ none := by
  obtain ⟨t, cr, sc, imps⟩ := w
  intro e he
  rw [apply_unfold]
  cases imps with
  | none => simp [TypeWire.imports] at he
  | some deps =>
    simp only [TypeWire.imports, Option.getD] at he
    have h₁ : lookupA (applyDeps deps c).bindings e.type.symbol ≠ none :=
      applyDeps_binds_all deps c e he
    show lookupA ((if (applyDeps deps c).isBound t then (applyDeps deps c).unbind t
        else (applyDeps deps c)).bindW (TypeWire.mk t cr sc (some deps))).bindings
        e.type.symbol ≠ none
    generalize applyDeps deps c = c₁ at h₁ ⊢
    show lookupA (setA (if c₁.isBound t then c₁.unbind t else c₁).bindings t.symbol
        (TypeWire.mk t cr sc (some deps))) e.type.symbol ≠ none
    by_cases hk : t.symbol = e.type.symbol
    · rw [← hk, lookupA_setA_self]
      simp
    · rw [lookupA_setA_ne _ _ _ _ (Ne.symm hk)]
      by_cases hb : c₁.isBound t
      · rw [if_pos hb]
        simp only [Container.unbind]
        rw [lookupA_eraseA_ne _ _ _ (Ne.symm hk)]
        exact h₁
      · rw [if_neg hb]
        exact h₁

/-- After `apply`, there is no cached singleton for the wire's own symbol:
either `unbind` just evicted it, or (by the reachable-container invariant)
no binding existed for the symbol and hence no cached value either. -/
theorem apply_evicts_own_cache (w : TypeWire) (c : Container)
    (h : ContainerInv c) :
    lookupA (w.apply c).singletons w.type.symbol = none := by
  obtain ⟨t, cr, sc, imps⟩ := w
  rw [apply_unfold]
  have h₁ : ContainerInv (match imps with
      | none => c
      | some deps => applyDeps deps c) := by
    cases imps with
    | none => exact h
    | some deps => exact applyDeps_inv deps c h
  generalize (match imps with
      | none => c
      | some deps => applyDeps deps c) = c₁ at h₁ ⊢
  show lookupA ((if c₁.isBound t then c₁.unbind t else c₁).bindW
      (TypeWire.mk t cr sc imps)).singletons t.symbol = none
  by_cases hb : c₁.isBound t
  · rw [if_pos hb]
    show lookupA (eraseA c₁.singletons t.symbol) t.symbol = none
    exact lookupA_eraseA_self _ _
  · rw [if_neg hb]
    show lookupA c₁.singletons t.symbol = none
    by_contra hne
    exact hb ((isBound_iff _ _).mpr (h₁ t.symbol hne))

/-- If every wire in the list is already bound, the import loop is the
identity. -/
theorem applyDeps_id_of_bound (l : List TypeWire) (c : Container)
    (h : ∀ e ∈ l, lookupA c.bindings e.type.symbol ≠ none) :
    applyDeps l c = c := by
  induction l with
  | nil => exact applyDeps_nil c
  | cons d rest ih =>
    rw [applyDeps_cons]
    have hb : c.isBound d.type = true := (isBound_iff _ _).mpr (h d (by simp))
    rw [if_pos hb]
    exact ih (fun e he => h e (by simp [he]))

end TypeWire

namespace TypeWire

/-- The tail of `apply` (`unbind` of a just-bound own symbol followed by
re-`bind`) is the identity on a container of the shape `bindW c₂ w'` when
`c₂` had no binding and the container no cached singleton for the symbol. -/
theorem apply_tail_eq (w' : TypeWire) (c₂ : Container)
    (hc₂ : lookupA c₂.bindings w'.type.symbol = none)
    (hcache : lookupA (Container.bindW c₂ w').singletons w'.type.symbol = none) :
    (if (Container.bindW c₂ w').isBound w'.type
      then (Container.bindW c₂ w').unbind w'.type
      else Container.bindW c₂ w').bindW w' = Container.bindW c₂ w' := by
  have hbB : (Container.bindW c₂ w').isBound w'.type = true := by
    refine (isBound_iff _ _).mpr ?_
    show lookupA (setA c₂.bindings w'.type.symbol w') w'.type.symbol ≠ none
    rw [lookupA_setA_self]
    simp
  rw [if_pos hbB]
  have h1 : (Container.bindW c₂ w').bindings =
      c₂.bindings ++ [(w'.type.symbol, w')] := by
    show setA c₂.bindings w'.type.symbol w' = _
    exact setA_of_lookupA_none _ _ _ hc₂
  refine container_ext _ _ ?_ ?_ rfl rfl
  · show setA (eraseA (Container.bindW c₂ w').bindings w'.type.symbol)
        w'.type.symbol w' = (Container.bindW c₂ w').bindings
    rw [h1, eraseA_append_self _ _ _ hc₂]
    exact setA_of_lookupA_none _ _ _ hc₂
  · show eraseA (Container.bindW c₂ w').singletons w'.type.symbol =
        (Container.bindW c₂ w').singletons
    exact eraseA_of_lookupA_none _ _ hcache

/-- Re-applying an already-applied wire leaves the container unchanged:
the import loop skips every (now bound) import, the own binding is
unbound and immediately re-bound to the same wire at the same position,
and the `unbind` finds no cached singleton left to evict. -/
theorem apply_idem (w : TypeWire) (c : Container) (h : ContainerInv c) :
    w.apply (w.apply c) = w.apply c := by
  have himp := apply_imports_bound w c
  have hcache := apply_evicts_own_cache w c h
  obtain ⟨t, cr, sc, imps⟩ := w
  cases imps with
  | none =>
    obtain ⟨c₂, hA, hc₂⟩ : ∃ c₂ : Container,
        TypeWire.apply (TypeWire.mk t cr sc none) c =
          Container.bindW c₂ (TypeWire.mk t cr sc none) ∧
        lookupA c₂.bindings t.symbol = none := by
      rw [apply_unfold]
      refine ⟨if c.isBound t then c.unbind t else c, rfl, ?_⟩
      by_cases hb : c.isBound t
      · rw [if_pos hb]
        exact lookupA_eraseA_self _ _
      · rw [if_neg hb]
        by_contra hne
        exact hb ((isBound_iff _ _).mpr hne)
    rw [hA] at hcache ⊢
    rw [apply_unfold]
    exact apply_tail_eq _ _ hc₂ hcache
  | some deps =>
    obtain ⟨c₂, hA, hc₂⟩ : ∃ c₂ : Container,
        TypeWire.apply (TypeWire.mk t cr sc (some deps)) c =
          Container.bindW c₂ (TypeWire.mk t cr sc (some deps)) ∧
        lookupA c₂.bindings t.symbol = none := by
      rw [apply_unfold]
      refine ⟨if (applyDeps deps c).isBound t then (applyDeps deps c).unbind t
          else applyDeps deps c, rfl, ?_⟩
      by_cases hb : (applyDeps deps c).isBound t
      · rw [if_pos hb]
        exact lookupA_eraseA_self _ _
      · rw [if_neg hb]
        by_contra hne
        exact hb ((isBound_iff _ _).mpr hne)
    rw [hA] at himp hcache ⊢
    rw [apply_unfold]
    have hdeps :
        applyDeps deps (Container.bindW c₂ (TypeWire.mk t cr sc (some deps))) =
        Container.bindW c₂ (TypeWire.mk t cr sc (some deps)) := by
      refine applyDeps_id_of_bound deps _ ?_
      intro e he
      exact himp e (by simpa [TypeWire.imports] using he)
    show (if (applyDeps deps (Container.bindW c₂
          (TypeWire.mk t cr sc (some deps)))).isBound t
        then (applyDeps deps (Container.bindW c₂
          (TypeWire.mk t cr sc (some deps)))).unbind t
        else applyDeps deps (Container.bindW c₂
          (TypeWire.mk t cr sc (some deps)))).bindW
        (TypeWire.mk t cr sc (some deps)) =
      Container.bindW c₂ (TypeWire.mk t cr sc (some deps))
    rw [hdeps]
    exact apply_tail_eq _ _ hc₂ hcache

end TypeWire

namespace TypeWire

/-- C6: for every wire `w` and container `c` satisfying the
reachable-container invariant (every cached singleton symbol is bound —
true of every container produced by the public API), `w.apply c` (1) binds
`w`'s own token to `w` itself, (2) leaves every declared import's token
bound, (3) leaves no cached singleton for `w`'s own token (the
`unbind`-before-`bind` evicted any such value), and (4) applying the same
wire a second time leaves the container state unchanged (idempotence). -/
theorem claim_C6_apply_registers_and_is_idempotent
    (w : TypeWire) (c : Container) (h : ContainerInv c) :
    lookupA (w.apply c).bindings w.type.symbol = some w ∧
    (∀ e ∈ w.imports.getD [], lookupA (w.apply c).bindings e.type.symbol ≠ none) ∧
    lookupA (w.apply c).singletons w.type.symbol = none ∧
    w.apply (w.apply c) = w.apply c :=
  ⟨apply_binds_self w c, apply_imports_bound w c,
   apply_evicts_own_cache w c h, apply_idem w c h⟩

/-- A wire with one import, used to exercise `apply` concretely. -/
def c6Inner : TypeWire :=
  .mk ⟨1, some "inner"⟩ ⟨false, .finish (fun _ => .ok (.vNum 1))⟩ none none

/-- A wire importing `c6Inner`. -/
def c6Wire : TypeWire :=
  .mk ⟨0, some "outer"⟩ ⟨false, .finish (fun _ => .ok (.vNum 0))⟩ none
    (some [c6Inner])

/-- C6 witness: the invariant holds for a fresh container and applying
`c6Wire` twice equals applying it once. -/
theorem claim_C6_witness :
    ContainerInv (Container.new none) ∧
    c6Wire.apply (c6Wire.apply (Container.new none)) =
      c6Wire.apply (Container.new none) :=
  ⟨fun _ hk => absurd rfl hk,
   (claim_C6_apply_registers_and_is_idempotent c6Wire (Container.new none)
      (fun _ hk => absurd rfl hk)).2.2.2⟩

end TypeWire

namespace TypeWire

/-! ## Claim C7: `typeWireOf` with `createWith` -/

/-- Spec-side creator body, written from the specification's words: resolve
every import via the suspending path, in declaration order, then invoke
`create-with` on the named resolved values. -/
def specAutoAct (imps : List (String × TypeWire)) (names : List String)
    (createWith : List (String × Value) → Except RErr Value) : CreatorAct :=
  match imps with
  | [] => .finish fun vals => createWith (names.zip vals)
  | (_, w) :: rest => .call false w.type (specAutoAct rest names createWith)

/-- The source's `autoCreator` body coincides with the spec-side one when
the import list is what the names were drawn from. -/
theorem buildAct_eq_spec (names : List String)
    (createWith : List (String × Value) → Except RErr Value)
    (imps : List (String × TypeWire)) :
    buildAct imps (fun vals => createWith (names.zip vals)) =
      specAutoAct imps names createWith := by
  induction imps with
  | nil => rfl
  | cons hd rest ih =>
    obtain ⟨n, w⟩ := hd
    simp [buildAct, specAutoAct, ih]

/-- C7 (amended): with `createWith` given, `typeWireOf` returns a wire
whose async creator follows the spec-side construction — resolve each of
the imports via the suspending path, then hand the named results to
`createWith` — **provided an imports map was supplied**; with no imports
map, `createWith` is ignored and the creator always throws the
`Not implemented yet` error. -/
theorem claim_C7_typeWireOf_createWith (opts : TypeWireOpts)
    (cw : List (String × Value) → Except RErr Value)
    (h : opts.createWith = some cw) :
    (∀ imps, opts.imports = some imps →
      typeWireOf opts = TypeWire.mk opts.token
        ⟨true, specAutoAct imps (imps.map (·.1)) cw⟩ opts.scope
        (some (imps.map (·.2)))) ∧
    (opts.imports = none →
      typeWireOf opts = TypeWire.mk opts.token
        ⟨true, .finish fun _ => .error (.jsError (notImplementedMsg opts.token))⟩
        opts.scope none) := by
  constructor
  · intro imps himp
    simp only [typeWireOf, h, himp]
    rw [buildAct_eq_spec]
  · intro himp
    simp only [typeWireOf, h, himp]

/-- Options with `createWith` but no imports map. -/
def c7Opts : TypeWireOpts :=
  { token := ⟨0, some "t"⟩, imports := none,
    createWith := some (fun _ => .ok (.vObj 5)),
    creator := none, scope := none }

/-- C7 counterexample: with `createWith` supplied but no imports map, the
produced wire's creator never invokes `createWith` (which here would
return an object); resolving the wire yields the thrown
`Not implemented yet` error instead. -/
theorem claim_C7_counterexample :
    c7Opts.createWith.isSome = true ∧
    (containerResolve 10 .async ((Container.new).bindW (typeWireOf c7Opts)) []
        c7Opts.token).1 =
      .error (.jsError (notImplementedMsg c7Opts.token)) ∧
    (c7Opts.createWith.getD (fun _ => .error .unmodeled)) [] = .ok (.vObj 5) :=
  ⟨rfl, by decide, rfl⟩

/-- An import wire for the C7 witness. -/
def c7ImportWire : TypeWire := constWire 1 "dep" (.vObj 7)

/-- A concrete `createWith` for the C7 witness. -/
def c7CW : List (String × Value) → Except RErr Value :=
  fun l => .ok (.vObj l.length)

/-- Options with `createWith` and one named import. -/
def c7Opts2 : TypeWireOpts :=
  { token := ⟨2, some "main"⟩, imports := some [("dep", c7ImportWire)],
    createWith := some c7CW, creator := none, scope := none }

/-- C7 witness: at the concrete options, the produced wire equals the
spec-side construction. -/
theorem claim_C7_witness :
    c7Opts2.createWith = some c7CW ∧
    typeWireOf c7Opts2 = TypeWire.mk c7Opts2.token
      ⟨true, specAutoAct [("dep", c7ImportWire)] ["dep"] c7CW⟩ c7Opts2.scope
      (some [c7ImportWire]) :=
  ⟨rfl, (claim_C7_typeWireOf_createWith c7Opts2 c7CW rfl).1
      [("dep", c7ImportWire)] rfl⟩

end TypeWire

namespace TypeWire

/-! ## Claim C8: `withScope` / `withCreator` frame conditions -/

/-- C8: `withScope s` yields a wire with the same identity token, creator
and imports and scope `s`; `withCreator f` yields a wire with the same
token, scope and imports whose creator is the decorator applied to the
original creator.  The embedding is pure, so the original wire is a value
that no operation can mutate; both operations construct a new wire. -/
theorem claim_C8_with_operations_preserve_identity (w : TypeWire) (s : String)
    (f : Creator → Creator) :
    (w.withScope s).type = w.type ∧
    (w.withScope s).creator = w.creator ∧
    (w.withScope s).imports = w.imports ∧
    (w.withScope s).scope = some s ∧
    (w.withCreator f).type = w.type ∧
    (w.withCreator f).scope = w.scope ∧
    (w.withCreator f).imports = w.imports ∧
    (w.withCreator f).creator = f w.creator := by
  obtain ⟨t, cr, sc, imps⟩ := w
  exact ⟨rfl, rfl, rfl, rfl, rfl, rfl, rfl, rfl⟩

end TypeWire
